import Mathlib

/-!
# selectdefaultapplication: the association-resolution engine

A shallow embedding of `src/xdgmimeapps.cpp` (class `XdgMimeApps`) and of
`SelectDefaultApplication::setDefault` from `src/selectdefaultapplication.cpp`.

Modelling conventions.

* Text (`QString`, `QByteArray`) is a list of Unicode characters.  A file's
  content is the list of characters its bytes decode to; a `QByteArray`
  operation that looks at ASCII bytes only (`trimmed`, `split('=')`,
  `startsWith('[')`) acts on the decoded characters in the same way, because
  no byte of a multi-byte UTF-8 sequence is an ASCII byte.
* `QHash<K, V>` is an association list with unique keys, `QMultiHash<K, V>` an
  association list whose most recent insertion comes first (the order
  `values(key)` reports), `QSet<QString>` a list; where the C++ iterates a
  hash or a set the model iterates the list in its order.
* The file system is passed explicitly; a write yields a new file system.
* `QMimeDatabase`, `QStandardPaths` and `QDir::absoluteFilePath` belong to Qt
  and are parameters of the model.
-/

namespace SDA

/-- Text: a `QString` or the decoded content of a `QByteArray`. -/
abbrev Str := List Char

/-! ## Character classes and `trimmed()` -/

/-- The whitespace test of `QByteArray::trimmed()`: space and the bytes 9 to 13. -/
def asciiIsSpace (c : Char) : Bool :=
  c.toNat == 32 || (decide (9 ≤ c.toNat) && decide (c.toNat ≤ 13))

/-- The whitespace test of `QString::trimmed()`, that is `QChar::isSpace`: the
ASCII whitespace, U+0085, U+00A0 and the separator categories Zs, Zl and Zp. -/
def qcharIsSpace (c : Char) : Bool :=
  asciiIsSpace c || c.toNat == 0x85 || c.toNat == 0xA0 || c.toNat == 0x1680 ||
  (decide (0x2000 ≤ c.toNat) && decide (c.toNat ≤ 0x200A)) ||
  c.toNat == 0x2028 || c.toNat == 0x2029 || c.toNat == 0x202F ||
  c.toNat == 0x205F || c.toNat == 0x3000

/-- Strip the characters satisfying `p` from both ends. -/
def trimmedWith (p : Char → Bool) (s : Str) : Str :=
  ((s.dropWhile p).reverse.dropWhile p).reverse

/-- The method `QByteArray::trimmed()`. -/
def byteTrimmed (s : Str) : Str := trimmedWith asciiIsSpace s

/-- The method `QString::trimmed()`. -/
def qTrimmed (s : Str) : Str := trimmedWith qcharIsSpace s

/-! ## Small string operations -/

/-- The test `s.startsWith(c)` for a single character. -/
def startsWithChar (s : Str) (c : Char) : Bool :=
  match s with
  | [] => false
  | d :: _ => d == c

/-- The text before the first `sep`: `section(sep, 0, 0)` and `split(sep).first()`. -/
def fieldFirst (sep : Char) (s : Str) : Str := s.takeWhile (fun c => c != sep)

/-- The text after the first `sep`: `section(sep, 1, -1)`. -/
def fieldRest (sep : Char) (s : Str) : Str := (s.dropWhile (fun c => c != sep)).drop 1

/-- The second field, `split(sep)[1]`, of a text that contains `sep`. -/
def fieldSecond (sep : Char) (s : Str) : Str := fieldFirst sep (fieldRest sep s)

/-- The fields of `s` between the occurrences of `sep`, empty fields included. -/
def splitChar (sep : Char) : Str → List Str
  | [] => [[]]
  | c :: cs =>
    if c = sep then [] :: splitChar sep cs
    else
      match splitChar sep cs with
      | [] => [[c]]
      | p :: ps => (c :: p) :: ps

/-- The call `s.split(sep, Qt::SkipEmptyParts)`. -/
def splitSkipEmpty (sep : Char) (s : Str) : List Str :=
  (splitChar sep s).filter (fun p => !p.isEmpty)

/-- The chunks successive `readLine()` calls return until `atEnd()`: each ends
with its line feed, except possibly the last. Every caller trims the chunk at
once, so a carriage return before the line feed is gone whether or not the file
was opened with `QIODevice::Text`. -/
def readLines : Str → List Str
  | [] => []
  | c :: cs =>
    if c = '\n' then [c] :: readLines cs
    else
      match readLines cs with
      | [] => [[c]]
      | l :: ls => (c :: l) :: ls

/-- The test `hay.contains(needle)` for a text needle. -/
def containsSub (needle hay : Str) : Bool :=
  hay.tails.any (fun t => needle.isPrefixOf t)

/-- The method `QFileInfo::fileName()`: the text after the last slash. -/
def fileName (path : Str) : Str :=
  (path.reverse.takeWhile (fun c => c != '/')).reverse

/-- The UTF-16 code units of a character, the units `QString` compares. -/
def utf16Units (c : Char) : List Nat :=
  if c.toNat < 0x10000 then [c.toNat]
  else [0xD800 + (c.toNat - 0x10000) / 0x400, 0xDC00 + (c.toNat - 0x10000) % 0x400]

/-- The UTF-16 code units of a text. -/
def utf16 (s : Str) : List Nat := s.flatMap utf16Units

/-- The order of `QString::operator<=`: lexicographic on UTF-16 code units. -/
def strLe (a b : Str) : Prop := utf16 a ≤ utf16 b

instance strLeDecidable : DecidableRel strLe := fun a b =>
  inferInstanceAs (Decidable (utf16 a ≤ utf16 b))

/-- The call `QStringList::sort()`. -/
def sortStrings (l : List Str) : List Str := l.insertionSort strLe

/-! ## Hash tables -/

/-- The method `QHash::contains`. -/
def hashContains (m : List (Str × β)) (k : Str) : Bool := (m.lookup k).isSome

/-- The method `QHash::insert` and the assignment `m[k] = v`. -/
def hashInsert (m : List (Str × β)) (k : Str) (v : β) : List (Str × β) :=
  if hashContains m k then m.map (fun e => if e.1 = k then (k, v) else e)
  else m ++ [(k, v)]

/-- The method `QHash::value(k)` for text values: empty when the key is absent. -/
def hashValue (m : List (Str × Str)) (k : Str) : Str := (m.lookup k).getD []

/-- The method `QMultiHash::insert`: the newest entry comes first. -/
def multiInsert (m : List (Str × Str)) (k v : Str) : List (Str × Str) := (k, v) :: m

/-- The method `QMultiHash::values(k)`: newest first. -/
def multiValues (m : List (Str × Str)) (k : Str) : List Str :=
  (m.filter (fun e => e.1 == k)).map Prod.snd

/-- The method `QSet::insert`. -/
def setInsert (s : List Str) (k : Str) : List Str := if s.contains k then s else s ++ [k]

/-! ## Environment -/

/-- The part of `QMimeDatabase` the engine uses. -/
structure MimeDb where
  /-- The canonical name `mimeTypeForName(name).name()`, `none` when the type is invalid. -/
  mimeTypeForName : Str → Option Str
  /-- The list `mimeTypeForName(name).parentMimeTypes()`. -/
  parentMimeTypes : Str → List Str

/-- The standard locations and the path arithmetic of Qt. -/
structure QtEnv where
  /-- The value `writableLocation(ConfigLocation)`. -/
  configHome : Str
  /-- The value `standardLocations(ConfigLocation)`. -/
  configLocations : List Str
  /-- The value `writableLocation(GenericDataLocation)`. -/
  dataHome : Str
  /-- The value `standardLocations(GenericDataLocation)`. -/
  dataLocations : List Str
  /-- The call `QDir(dir).absoluteFilePath(name)`. -/
  absoluteFilePath : Str → Str → Str

/-- The files a process sees: readable content by path, and whether a path can
be opened for writing. -/
structure FileSystem where
  /-- The content of a file that exists and opens for reading. -/
  content : Str → Option Str
  /-- Whether `open(QIODevice::WriteOnly)` succeeds. -/
  writable : Str → Bool

/-- The file system after `data` has been written to `path`. -/
def FileSystem.write (fs : FileSystem) (path data : Str) : FileSystem :=
  { content := fun p => if p = path then some data else fs.content p
    writable := fs.writable }

/-! ## The state of `XdgMimeApps` -/

/-- The member variables of class `XdgMimeApps`. -/
structure XdgMimeApps where
  m_desktops : List Str
  m_defaults : List (Str × Str)
  m_addedAssociations : List (Str × Str)
  m_removedAssociations : List (Str × Str)
  m_userDefaults : List Str
  m_apps : List (Str × List (Str × Str))
  m_applicationIcons : List (Str × Str)
  m_childMimeTypes : List (Str × Str)
  m_mimegroups : List Str

/-- A freshly constructed object with the given desktop list. -/
def XdgMimeApps.init (desktops : List Str) : XdgMimeApps :=
  { m_desktops := desktops, m_defaults := [], m_addedAssociations := [],
    m_removedAssociations := [], m_userDefaults := [], m_apps := [],
    m_applicationIcons := [], m_childMimeTypes := [], m_mimegroups := [] }

/-- The header `[Default Applications]`. -/
def headerDefault : Str := "[Default Applications]".toList

/-- The header `[Added Associations]`. -/
def headerAdded : Str := "[Added Associations]".toList

/-- The header `[Removed Associations]`. -/
def headerRemoved : Str := "[Removed Associations]".toList

/-- The suffix `-mimeapps.list` of a desktop-specific file. -/
def desktopSuffix : Str := "-mimeapps.list".toList

/-- The name `mimeapps.list` of a generic file. -/
def mimeappsName : Str := "mimeapps.list".toList

/-! ## `getMimeAppsListPaths` -/

/-- The method `QList::removeOne`: drop the first occurrence. -/
def removeOne (l : List Str) (x : Str) : List Str := l.erase x

/-- The list `configDirs` of `getMimeAppsListPaths` after `removeOne(configHome)`. -/
def configDirs (env : QtEnv) : List Str := removeOne env.configLocations env.configHome

/-- The list `dataDirs` of `getMimeAppsListPaths` after `removeOne(dataHome)`. -/
def dataDirs (env : QtEnv) : List Str := removeOne env.dataLocations env.dataHome

/-- One `for (desktop : m_desktops) paths.append(...)` loop. -/
def appendDesktopPaths (env : QtEnv) (desktops : List Str) (dir : Str) (paths : List Str) :
    List Str :=
  desktops.foldl (fun acc desktop => acc ++ [env.absoluteFilePath dir (desktop ++ desktopSuffix)])
    paths

/-- The method `XdgMimeApps::getMimeAppsListPaths`. -/
def getMimeAppsListPaths (env : QtEnv) (desktops : List Str) : List Str :=
  let paths : List Str := []
  -- 1. Desktop-specific in config home
  let paths := appendDesktopPaths env desktops env.configHome paths
  -- 2. Generic in config home
  let paths := paths ++ [env.absoluteFilePath env.configHome mimeappsName]
  -- 3. Desktop-specific in config dirs
  let paths := (configDirs env).foldl (fun acc configDir =>
    appendDesktopPaths env desktops configDir acc ++ [env.absoluteFilePath configDir mimeappsName])
    paths
  -- 4. Desktop-specific in data home applications
  let dataHomeApps := env.absoluteFilePath env.dataHome "applications".toList
  let paths := appendDesktopPaths env desktops dataHomeApps paths
  -- 5. Generic in data home applications
  let paths := paths ++ [env.absoluteFilePath dataHomeApps mimeappsName]
  -- 6. Data dirs applications
  let paths := (dataDirs env).foldl (fun acc dataDir =>
    let dataDirApps := env.absoluteFilePath dataDir "applications".toList
    appendDesktopPaths env desktops dataDirApps acc ++
      [env.absoluteFilePath dataDirApps mimeappsName])
    paths
  paths

/-! ## `parseMimeAppsList` and `loadAllConfigs` -/

/-- The decoding `QString::fromUtf8` of the bytes of one line: a leading byte
order mark is dropped. Text is held as characters throughout, so the decoding
changes nothing else. -/
def fromUtf8 (bytes : Str) : Str :=
  match bytes with
  | [] => []
  | c :: rest => if c = '\uFEFF' then rest else c :: rest

/-- The local enumeration `Section` of `parseMimeAppsList`. -/
inductive Section where
  | None
  | DefaultApplications
  | AddedAssociations
  | RemovedAssociations
  deriving DecidableEq, Repr

/-- The loop over `desktopIds` of the `DefaultApplications` case: the first
identifier that is non-empty after trimming. -/
def firstValidId : List Str → Option Str
  | [] => none
  | desktopId :: rest =>
    if !(qTrimmed desktopId).isEmpty then some (qTrimmed desktopId) else firstValidId rest

/-- The loop over `desktopIds` of the two association cases. -/
def insertIds (table : List (Str × Str)) (mimeType : Str) (desktopIds : List Str) :
    List (Str × Str) :=
  desktopIds.foldl (fun acc desktopId =>
    if !(qTrimmed desktopId).isEmpty then multiInsert acc mimeType (qTrimmed desktopId) else acc)
    table

/-- One iteration of the `while (!file.atEnd())` loop of `parseMimeAppsList`. -/
def parseLine (desktopSpecific : Bool) (st : XdgMimeApps × Section) (rawLine : Str) :
    XdgMimeApps × Section :=
  let line := qTrimmed (fromUtf8 rawLine)
  if line.isEmpty || startsWithChar line '#' then st
  else if startsWithChar line '[' then
    if line = headerDefault then (st.1, Section.DefaultApplications)
    else if line = headerAdded then (st.1, Section.AddedAssociations)
    else if line = headerRemoved then (st.1, Section.RemovedAssociations)
    else (st.1, Section.None)
  else if !line.contains '=' then st
  else
    let mimeType := qTrimmed (fieldFirst '=' line)
    let value := qTrimmed (fieldRest '=' line)
    let desktopIds := splitSkipEmpty ';' value
    match st.2 with
    | Section.DefaultApplications =>
      if !hashContains st.1.m_defaults mimeType then
        match firstValidId desktopIds with
        | some trimmedId =>
          ({ st.1 with m_defaults := hashInsert st.1.m_defaults mimeType trimmedId }, st.2)
        | none => st
      else st
    | Section.AddedAssociations =>
      if !desktopSpecific then
        ({ st.1 with
            m_addedAssociations := insertIds st.1.m_addedAssociations mimeType desktopIds }, st.2)
      else st
    | Section.RemovedAssociations =>
      if !desktopSpecific then
        ({ st.1 with
            m_removedAssociations := insertIds st.1.m_removedAssociations mimeType desktopIds },
          st.2)
      else st
    | Section.None => st

/-- The method `XdgMimeApps::parseMimeAppsList`; a file that does not open
leaves the object as it is. -/
def parseMimeAppsList (fs : FileSystem) (x : XdgMimeApps) (filePath : Str)
    (desktopSpecific : Bool) : XdgMimeApps :=
  match fs.content filePath with
  | none => x
  | some content => ((readLines content).foldl (parseLine desktopSpecific) (x, Section.None)).1

/-- One iteration of the re-parse loop of `loadAllConfigs` that fills `m_userDefaults`. -/
def userDefaultsLine (st : List Str × Bool) (rawLine : Str) : List Str × Bool :=
  let line := qTrimmed (fromUtf8 rawLine)
  if startsWithChar line '[' then (st.1, decide (line = headerDefault))
  else if st.2 && line.contains '=' then (setInsert st.1 (qTrimmed (fieldFirst '=' line)), st.2)
  else st

/-- The body of the `for (path : paths)` loop of `loadAllConfigs`. -/
def loadConfigFile (env : QtEnv) (fs : FileSystem) (x : XdgMimeApps) (path : Str) :
    XdgMimeApps :=
  match fs.content path with
  | none => x
  | some content =>
    let isDesktopSpecific := containsSub desktopSuffix (fileName path)
    let isUserConfig := env.configHome.isPrefixOf path
    let x := parseMimeAppsList fs x path isDesktopSpecific
    if isUserConfig && !isDesktopSpecific then
      { x with m_userDefaults :=
          ((readLines content).foldl userDefaultsLine (x.m_userDefaults, false)).1 }
    else x

/-- The four `clear()` calls that open `loadAllConfigs`. -/
def clearConfigs (x : XdgMimeApps) : XdgMimeApps :=
  { x with m_defaults := [], m_addedAssociations := [], m_removedAssociations := [],
           m_userDefaults := [] }

/-- The loop of `loadAllConfigs` over an explicit list of paths. -/
def loadConfigPaths (env : QtEnv) (fs : FileSystem) (x : XdgMimeApps) (paths : List Str) :
    XdgMimeApps :=
  paths.foldl (loadConfigFile env fs) (clearConfigs x)

/-- The method `XdgMimeApps::loadAllConfigs`. -/
def loadAllConfigs (env : QtEnv) (fs : FileSystem) (x : XdgMimeApps) : XdgMimeApps :=
  loadConfigPaths env fs x (getMimeAppsListPaths env x.m_desktops)

/-- The method `XdgMimeApps::getDefaultApp`. -/
def getDefaultApp (x : XdgMimeApps) (mimeType : Str) : Str := hashValue x.m_defaults mimeType

/-- The method `XdgMimeApps::getAssociatedApps`. -/
def getAssociatedApps (x : XdgMimeApps) (mimeType : Str) : List Str :=
  let removed := multiValues x.m_removedAssociations mimeType
  let added := multiValues x.m_addedAssociations mimeType
  added.foldl (fun result app =>
    if !removed.contains app && !result.contains app then result ++ [app] else result) []

/-- The method `XdgMimeApps::hasUserDefault`. -/
def hasUserDefault (x : XdgMimeApps) (mimeType : Str) : Bool := x.m_userDefaults.contains mimeType

/-! ## `normalizeMimeType` -/

/-- The constant `X_SCHEME_HANDLER`. -/
def schemeHandler : Str := "x-scheme-handler/".toList

/-- The method `XdgMimeApps::normalizeMimeType`; the empty text stands for an
invalid type. -/
def normalizeMimeType (db : MimeDb) (name : Str) : Str :=
  if schemeHandler.isPrefixOf name then name
  else
    match db.mimeTypeForName name with
    | none => []
    | some mimetypeName =>
      -- Workaround for QTBUG-99509
      if mimetypeName = "application/pkcs12".toList then "application/x-pkcs12".toList
      else mimetypeName

/-! ## `setDefaults` -/

/-- The local variables of the read loop of `XdgMimeApps::setDefaults`. -/
structure DefaultsScan where
  inCorrectGroup : Bool
  existingContent : List Str
  existingAssociations : List Str

/-- The state before the first line is read. -/
def DefaultsScan.init : DefaultsScan :=
  { inCorrectGroup := false, existingContent := [], existingAssociations := [] }

/-- One iteration of the read loop of `XdgMimeApps::setDefaults`. -/
def setDefaultsLine (db : MimeDb) (mimeTypes : List Str) (st : DefaultsScan) (rawLine : Str) :
    DefaultsScan :=
  let line := byteTrimmed rawLine
  if line.isEmpty then st
  else if startsWithChar line '[' then
    let inCorrectGroup := decide (line = headerDefault)
    if !inCorrectGroup then
      { st with inCorrectGroup := inCorrectGroup, existingContent := st.existingContent ++ [line] }
    else { st with inCorrectGroup := inCorrectGroup }
  else if !st.inCorrectGroup then { st with existingContent := st.existingContent ++ [line] }
  else if !line.contains '=' then
    { st with existingAssociations := st.existingAssociations ++ [line] }
  else
    let mimetype := normalizeMimeType db (byteTrimmed (fieldFirst '=' line))
    -- If we aren't setting this mimetype, leave any entry
    if !mimeTypes.contains mimetype then
      { st with existingAssociations := st.existingAssociations ++ [line] }
    else st

/-- The read phase of `XdgMimeApps::setDefaults`; a file that does not open
leaves both lists empty. -/
def setDefaultsScan (db : MimeDb) (mimeTypes : List Str) (old : Option Str) : DefaultsScan :=
  match old with
  | none => DefaultsScan.init
  | some content => (readLines content).foldl (setDefaultsLine db mimeTypes) DefaultsScan.init

/-- A loop of `file.write(line + '\n')` calls. -/
def writeLines (lines : List Str) : Str := lines.flatMap (fun line => line ++ ['\n'])

/-- The list `mimeTypes.values()` after `sort()`; a `QSet` holds no element twice. -/
def selectedMimetypes (mimeTypes : List Str) : List Str := sortStrings mimeTypes.dedup

/-- The bytes the write phase of `XdgMimeApps::setDefaults` puts into the file. -/
def setDefaultsContent (db : MimeDb) (appFile : Str) (mimeTypes : List Str) (old : Option Str) :
    Str :=
  let st := setDefaultsScan db mimeTypes old
  writeLines st.existingContent ++ "\n[Default Applications]\n".toList ++
    writeLines st.existingAssociations ++
    (selectedMimetypes mimeTypes).flatMap (fun mimetype => mimetype ++ '=' :: appFile ++ ['\n'])

/-- The path of the user's generic file, `mimeapps.list` in the config home. -/
def userFilePath (env : QtEnv) : Str := env.absoluteFilePath env.configHome mimeappsName

/-- The method `XdgMimeApps::setDefaults`. -/
def setDefaults (env : QtEnv) (db : MimeDb) (fs : FileSystem) (appFile : Str)
    (mimeTypes : List Str) : FileSystem :=
  if mimeTypes.isEmpty then fs
  else if !fs.writable (userFilePath env) then fs
  else
    fs.write (userFilePath env)
      (setDefaultsContent db appFile mimeTypes (fs.content (userFilePath env)))

/-! ## `removeDefaults` -/

/-- The local variables of the read loop of `XdgMimeApps::removeDefaults`. -/
structure RemoveScan where
  inDefaultSection : Bool
  inAddedSection : Bool
  existingContent : List Str

/-- The state before the first line is read. -/
def RemoveScan.init : RemoveScan :=
  { inDefaultSection := false, inAddedSection := false, existingContent := [] }

/-- One iteration of the read loop of `XdgMimeApps::removeDefaults`. -/
def removeDefaultsLine (db : MimeDb) (mimeTypes : List Str) (st : RemoveScan) (readLine : Str) :
    RemoveScan :=
  let rawLine := byteTrimmed readLine
  if rawLine.isEmpty then st
  else
    let line := rawLine
    if startsWithChar line '[' then
      { inDefaultSection := decide (line = headerDefault)
        inAddedSection := decide (line = headerAdded)
        existingContent := st.existingContent ++ [rawLine] }
    -- If we are in neither section, keep the line
    else if !st.inDefaultSection && !st.inAddedSection then
      { st with existingContent := st.existingContent ++ [rawLine] }
    else if !line.contains '=' then { st with existingContent := st.existingContent ++ [rawLine] }
    else
      let mimetype := normalizeMimeType db (qTrimmed (fieldFirst '=' line))
      if mimeTypes.contains mimetype then
        if mimeTypes.contains mimetype then st
        else { st with existingContent := st.existingContent ++ [rawLine] }
      else { st with existingContent := st.existingContent ++ [rawLine] }

/-- The read phase of `XdgMimeApps::removeDefaults`. -/
def removeDefaultsScan (db : MimeDb) (mimeTypes : List Str) (old : Option Str) : RemoveScan :=
  match old with
  | none => RemoveScan.init
  | some content => (readLines content).foldl (removeDefaultsLine db mimeTypes) RemoveScan.init

/-- The bytes the write phase of `XdgMimeApps::removeDefaults` puts into the file. -/
def removeDefaultsContent (db : MimeDb) (mimeTypes : List Str) (old : Option Str) : Str :=
  writeLines (removeDefaultsScan db mimeTypes old).existingContent

/-- The method `XdgMimeApps::removeDefaults`. -/
def removeDefaults (env : QtEnv) (db : MimeDb) (fs : FileSystem) (mimeTypes : List Str) :
    FileSystem :=
  if mimeTypes.isEmpty then fs
  else if !fs.writable (userFilePath env) then fs
  else
    fs.write (userFilePath env)
      (removeDefaultsContent db mimeTypes (fs.content (userFilePath env)))

/-! ## `SelectDefaultApplication::setDefault` -/

/-- The table `apps[appName]` read through a const reference: empty for an
unknown application. -/
def appTable (apps : List (Str × List (Str × Str))) (appName : Str) : List (Str × Str) :=
  (apps.lookup appName).getD []

/-- The local variables of the read loop of `SelectDefaultApplication::setDefault`. -/
structure ConflictScan where
  inCorrectGroup : Bool
  existingContent : List Str
  existingAssociations : List Str
  warnings : List (Str × Str)

/-- The state before the first line is read. -/
def ConflictScan.init : ConflictScan :=
  { inCorrectGroup := false, existingContent := [], existingAssociations := [], warnings := [] }

/-- One iteration of the read loop of `SelectDefaultApplication::setDefault`. -/
def setDefaultLine (db : MimeDb) (apps : List (Str × List (Str × Str))) (appName : Str)
    (mimetypes : List Str) (st : ConflictScan) (rawLine : Str) : ConflictScan :=
  let line := byteTrimmed rawLine
  if line.isEmpty then st
  else if startsWithChar line '[' then
    let inCorrectGroup := decide (line = headerDefault)
    if !inCorrectGroup then
      { st with inCorrectGroup := inCorrectGroup, existingContent := st.existingContent ++ [line] }
    else { st with inCorrectGroup := inCorrectGroup }
  else if !st.inCorrectGroup then { st with existingContent := st.existingContent ++ [line] }
  else if !line.contains '=' then
    { st with existingAssociations := st.existingAssociations ++ [line] }
  else
    let mimetype := normalizeMimeType db (byteTrimmed (fieldFirst '=' line))
    if !mimetypes.contains mimetype then
      { st with existingAssociations := st.existingAssociations ++ [line] }
    else
      let handlingAppFile := byteTrimmed (fieldSecond '=' line)
      let appFile := hashValue (appTable apps appName) mimetype
      if appFile != handlingAppFile && hashContains (appTable apps appName) mimetype then
        { st with warnings := hashInsert st.warnings mimetype handlingAppFile }
      else st

/-- The read phase of `SelectDefaultApplication::setDefault`. -/
def setDefaultScan (db : MimeDb) (apps : List (Str × List (Str × Str))) (appName : Str)
    (mimetypes : List Str) (old : Option Str) : ConflictScan :=
  match old with
  | none => ConflictScan.init
  | some content =>
    (readLines content).foldl (setDefaultLine db apps appName mimetypes) ConflictScan.init

/-- The loop over `warnings.keys()`: a conflicting type that is not approved is
removed from the requested types. -/
def dropUnapproved (warnings : List (Str × Str)) (mimesToOverwrite mimetypes : List Str) :
    List Str :=
  (warnings.map Prod.fst).foldl (fun acc warningType =>
    if !mimesToOverwrite.contains warningType then acc.filter (fun m => m != warningType)
    else acc) mimetypes

/-- The table `fileToMimes`: the requested types grouped by the descriptor the
application's table gives them; a type without an entry is left out. -/
def fileToMimes (apps : List (Str × List (Str × Str))) (appName : Str) (mimetypes : List Str) :
    List (Str × List Str) :=
  mimetypes.foldl (fun acc mime =>
    let file := hashValue (appTable apps appName) mime
    if !file.isEmpty then hashInsert acc file (setInsert ((acc.lookup file).getD []) mime)
    else acc) []

/-- The loop `for (it : fileToMimes) m_xdgMimeApps.setDefaults(it.key(), it.value())`. -/
def applyDefaults (env : QtEnv) (db : MimeDb) (fs : FileSystem) (calls : List (Str × List Str)) :
    FileSystem :=
  calls.foldl (fun fs call => setDefaults env db fs call.1 call.2) fs

/-- What a run of `SelectDefaultApplication::setDefault` leaves behind. -/
structure SetDefaultResult where
  /-- The conflicts recorded by the read phase. -/
  warnings : List (Str × Str)
  /-- Whether the run ended at `return; // User canceled`. -/
  cancelled : Bool
  /-- The requested types after the unapproved conflicts are removed. -/
  mimetypes : List Str
  /-- The arguments of the `XdgMimeApps::setDefaults` calls, in call order. -/
  calls : List (Str × List Str)
  /-- The file system afterwards. -/
  fs : FileSystem

/-- The method `SelectDefaultApplication::setDefault`; `confirm` stands for
`getGranularOverwriteConfirmation` and `apps` for `m_xdgMimeApps.getApps()`. -/
def setDefault (env : QtEnv) (db : MimeDb) (fs : FileSystem)
    (apps : List (Str × List (Str × Str))) (confirm : List (Str × Str) → Str → List Str)
    (appName : Str) (mimetypes : List Str) : SetDefaultResult :=
  let scan := setDefaultScan db apps appName mimetypes (fs.content (userFilePath env))
  let mimesToOverwrite := confirm scan.warnings appName
  if !scan.warnings.isEmpty && mimesToOverwrite.isEmpty then
    { warnings := scan.warnings, cancelled := true, mimetypes := mimetypes, calls := [], fs := fs }
  else
    let mimetypes :=
      if !scan.warnings.isEmpty then dropUnapproved scan.warnings mimesToOverwrite mimetypes
      else mimetypes
    let calls := fileToMimes apps appName mimetypes
    { warnings := scan.warnings, cancelled := false, mimetypes := mimetypes, calls := calls,
      fs := applyDefaults env db fs calls }

/-! ## `loadDesktopFile` and `loadApplications` -/

/-- The method `QFileInfo::baseName()`: the file name up to its first dot. -/
def baseName (path : Str) : Str := (fileName path).takeWhile (fun c => c != '.')

/-- The call `line.indexOf(c)`: the position of the first `c`, -1 when there is none. -/
def indexOfChar (s : Str) (c : Char) : Int :=
  if s.contains c then ((s.takeWhile (fun d => d != c)).length : Int) else -1

/-- The header `[Desktop Entry]`. -/
def headerDesktopEntry : Str := "[Desktop Entry]".toList

/-- The local variables of the read loop of `loadDesktopFile`. -/
structure DesktopScan where
  appName : Str
  appIcon : Str
  mimetypes : List Str
  inDesktopEntry : Bool
  /-- Set when the loop is left through `break`. -/
  finished : Bool

/-- The state before the first line is read. -/
def DesktopScan.init : DesktopScan :=
  { appName := [], appIcon := [], mimetypes := [], inDesktopEntry := false, finished := false }

/-- One iteration of the `while (!in.atEnd())` loop of `loadDesktopFile`; the
chunk is trimmed at once, as the line `QTextStream::readLine()` returns is. -/
def loadDesktopLine (st : DesktopScan) (rawLine : Str) : DesktopScan :=
  if st.finished then st
  else
    let line := qTrimmed rawLine
    if line.isEmpty || startsWithChar line '#' then st
    else if startsWithChar line '[' then
      let inDesktopEntry := decide (line = headerDesktopEntry)
      if !inDesktopEntry && !st.appName.isEmpty then
        -- Done with Desktop Entry section
        { st with inDesktopEntry := inDesktopEntry, finished := true }
      else { st with inDesktopEntry := inDesktopEntry }
    else if !st.inDesktopEntry then st
    else
      let eqPos := indexOfChar line '='
      if eqPos ≤ 0 then st
      else
        let key := qTrimmed (line.take eqPos.toNat)
        let value := qTrimmed (line.drop (eqPos.toNat + 1))
        if key = "Name".toList then { st with appName := value }
        else if key = "MimeType".toList then { st with mimetypes := splitSkipEmpty ';' value }
        else if key = "Icon".toList then { st with appIcon := value }
        else st

/-- The read phase of `loadDesktopFile`. -/
def loadDesktopScan (content : Str) : DesktopScan :=
  (readLines content).foldl loadDesktopLine DesktopScan.init

/-- The display name `loadDesktopFile` settles on: the `Name` value, or the base
name of the file when there is none. -/
def desktopAppName (filePath content : Str) : Str :=
  if (loadDesktopScan content).appName.isEmpty then baseName filePath
  else (loadDesktopScan content).appName

/-- One iteration of the `for (readMimeName : mimetypes)` loop of `loadDesktopFile`. -/
def registerMimeType (db : MimeDb) (appName appFile : Str) (x : XdgMimeApps)
    (readMimeName : Str) : XdgMimeApps :=
  let mimetypeName := normalizeMimeType db readMimeName
  if mimetypeName.isEmpty then x
  else
    let parents := db.parentMimeTypes mimetypeName
    let childMimeTypes := parents.foldl (fun acc parent =>
      if parent != "application/octet-stream".toList then multiInsert acc parent mimetypeName
      else acc) x.m_childMimeTypes
    let mimegroups :=
      if mimetypeName.contains '/' then setInsert x.m_mimegroups (fieldFirst '/' mimetypeName)
      else x.m_mimegroups
    -- Higher priority directories are scanned first
    let apps :=
      if !hashContains (appTable x.m_apps appName) mimetypeName then
        hashInsert x.m_apps appName (hashInsert (appTable x.m_apps appName) mimetypeName appFile)
      else x.m_apps
    { x with m_childMimeTypes := childMimeTypes, m_mimegroups := mimegroups, m_apps := apps }

/-- The method `XdgMimeApps::loadDesktopFile`; a file that does not open leaves
the object as it is. -/
def loadDesktopFile (db : MimeDb) (fs : FileSystem) (x : XdgMimeApps) (filePath : Str) :
    XdgMimeApps :=
  match fs.content filePath with
  | none => x
  | some content =>
    let appFile := fileName filePath
    let scan := loadDesktopScan content
    let appName := desktopAppName filePath content
    let icons :=
      if !scan.appIcon.isEmpty && (hashValue x.m_applicationIcons appName).isEmpty then
        hashInsert x.m_applicationIcons appName scan.appIcon
      else x.m_applicationIcons
    let x := { x with m_applicationIcons := icons }
    if scan.mimetypes.isEmpty then x
    else scan.mimetypes.foldl (registerMimeType db appName appFile) x

/-- The four `clear()` calls that open `loadApplications`. -/
def clearApplications (x : XdgMimeApps) : XdgMimeApps :=
  { x with m_apps := [], m_applicationIcons := [], m_childMimeTypes := [], m_mimegroups := [] }

/-- The method `XdgMimeApps::loadApplications`; `appDirs` stands for
`standardLocations(ApplicationsLocation)` and `entryInfoList dir` for the
`*.desktop` files `QDir(dir).entryInfoList` reports, as absolute paths. -/
def loadApplications (db : MimeDb) (fs : FileSystem) (x : XdgMimeApps) (appDirs : List Str)
    (entryInfoList : Str → List Str) : XdgMimeApps :=
  appDirs.foldl (fun x dirPath => (entryInfoList dirPath).foldl (loadDesktopFile db fs) x)
    (clearApplications x)

/-- The descriptor files in scan order: directory by directory. -/
def scanOrder (appDirs : List Str) (entryInfoList : Str → List Str) : List Str :=
  appDirs.flatMap entryInfoList

/-! ## The implied-support set of `onApplicationSelectedLogic` -/

/-- The set `impliedSupported` that `onApplicationSelectedLogic` builds for the
selected application. -/
def impliedSupported (apps : List (Str × List (Str × Str))) (childMimeTypes : List (Str × Str))
    (appName : Str) : List Str :=
  let officiallySupported := appTable apps appName
  (officiallySupported.map Prod.fst).foldl (fun implied mimetype =>
    (multiValues childMimeTypes mimetype).foldl (fun implied child =>
      -- Ensure that the officially supported keys don't contain this value
      if !hashContains officiallySupported child then setInsert implied child else implied)
      implied) []

/-! ## Reading aids: what one line and one file contribute -/

/-- The section in force after a line, as `parseMimeAppsList` tracks it in `currentSection`. -/
def lineSection (sec : Section) (rawLine : Str) : Section :=
  let line := qTrimmed (fromUtf8 rawLine)
  if line.isEmpty || startsWithChar line '#' then sec
  else if startsWithChar line '[' then
    if line = headerDefault then Section.DefaultApplications
    else if line = headerAdded then Section.AddedAssociations
    else if line = headerRemoved then Section.RemovedAssociations
    else Section.None
  else sec

/-- The entry a line offers to `m_defaults` when read in section `sec`: its key and
the first valid identifier of its value. -/
def lineDefault (sec : Section) (rawLine : Str) : Option (Str × Str) :=
  let line := qTrimmed (fromUtf8 rawLine)
  if line.isEmpty || startsWithChar line '#' then none
  else if startsWithChar line '[' then none
  else if !line.contains '=' then none
  else if sec = Section.DefaultApplications then
    (firstValidId (splitSkipEmpty ';' (qTrimmed (fieldRest '=' line)))).map
      (fun v => (qTrimmed (fieldFirst '=' line), v))
  else none

/-- The guarded insertion `if (!m_defaults.contains(k)) m_defaults.insert(k, v)`. -/
def guardedInsert (m : List (Str × Str)) (e : Option (Str × Str)) : List (Str × Str) :=
  match e with
  | none => m
  | some (k, v) => if hashContains m k then m else hashInsert m k v

/-- The first entry for `t` that the lines offer, read from section `sec` on. -/
def linesDefault (t : Str) : Section → List Str → Option Str
  | _, [] => none
  | sec, l :: ls => ((lineDefault sec l).toList.lookup t).or (linesDefault t (lineSection sec l) ls)

/-- The default one layer gives a type: the file parsed alone into an empty table. -/
def layerDefault (fs : FileSystem) (path mimeType : Str) : Option Str :=
  (parseMimeAppsList fs (XdgMimeApps.init []) path
    (containsSub desktopSuffix (fileName path))).m_defaults.lookup mimeType

/-- What a line does to the association table of section `target` (added or
removed) when read in section `sec`. -/
def lineAssoc (target : Section) (desktopSpecific : Bool) (sec : Section) (rawLine : Str)
    (table : List (Str × Str)) : List (Str × Str) :=
  let line := qTrimmed (fromUtf8 rawLine)
  if line.isEmpty || startsWithChar line '#' then table
  else if startsWithChar line '[' then table
  else if !line.contains '=' then table
  else if sec = target ∧ desktopSpecific = false then
    insertIds table (qTrimmed (fieldFirst '=' line))
      (splitSkipEmpty ';' (qTrimmed (fieldRest '=' line)))
  else table

/-- The path list the specification describes, tier by tier. -/
def specPaths (env : QtEnv) (desktops : List Str) : List Str :=
  let specific := fun dir : Str =>
    desktops.map (fun d => env.absoluteFilePath dir (d ++ desktopSuffix))
  let generic := fun dir : Str => env.absoluteFilePath dir mimeappsName
  let apps := fun dir : Str => env.absoluteFilePath dir "applications".toList
  specific env.configHome ++ [generic env.configHome] ++
    (configDirs env).flatMap (fun dir => specific dir ++ [generic dir]) ++
    (specific (apps env.dataHome) ++ [generic (apps env.dataHome)]) ++
    (dataDirs env).flatMap (fun dir => specific (apps dir) ++ [generic (apps dir)])

/-! ## The user file as the specification describes it -/

/-- The characters `QString::trimmed()` strips beyond `QByteArray::trimmed()`
do not occur in the text. -/
def AsciiSpaces (s : Str) : Prop := ∀ c ∈ s, qcharIsSpace c = true → asciiIsSpace c = true

instance asciiSpacesDecidable (s : Str) : Decidable (AsciiSpaces s) := by
  unfold AsciiSpaces
  exact inferInstance

/-- The lines that satisfy `keep`, which sees the lines before the one it judges. -/
def selectFrom (keep : List Str → Str → Bool) : List Str → List Str → List Str
  | _, [] => []
  | before, chunk :: rest =>
    (if keep before chunk then [chunk] else []) ++ selectFrom keep (before ++ [chunk]) rest

/-- The lines of a file without their line feeds. -/
def fileLines (content : Str) : List Str :=
  (readLines content).map (fun chunk => chunk.filter (fun c => c != '\n'))

/-- Whether some scanned application's table gives `mimeType` the descriptor `d`:
the descriptor natively declares the type. -/
def nativelyDeclared (x : XdgMimeApps) (mimeType d : Str) : Bool :=
  x.m_apps.any (fun entry => entry.2.lookup mimeType == some d)

/-- The added associations of one layer: the file parsed alone, as
`loadAllConfigs` classifies it. -/
def layerAddedTable (fs : FileSystem) (path : Str) : List (Str × Str) :=
  (parseMimeAppsList fs (XdgMimeApps.init []) path
    (containsSub desktopSuffix (fileName path))).m_addedAssociations

/-- The removed associations of one layer: the file parsed alone, as
`loadAllConfigs` classifies it. -/
def layerRemovedTable (fs : FileSystem) (path : Str) : List (Str × Str) :=
  (parseMimeAppsList fs (XdgMimeApps.init []) path
    (containsSub desktopSuffix (fileName path))).m_removedAssociations

/-- The layer lists `d` for `t` under `[Added Associations]`. -/
def listsAdded (fs : FileSystem) (path t d : Str) : Prop :=
  d ∈ multiValues (parseMimeAppsList fs (XdgMimeApps.init []) path false).m_addedAssociations t

/-- The layer lists `d` for `t` under `[Removed Associations]`. -/
def listsRemoved (fs : FileSystem) (path t d : Str) : Prop :=
  d ∈ multiValues (parseMimeAppsList fs (XdgMimeApps.init []) path false).m_removedAssociations t

/-- Whether a descriptor with this content declares the valid normalized type
`t`: some entry of its `MimeType` list normalizes to `t`. -/
def declaresType (db : MimeDb) (content t : Str) : Bool :=
  decide (t ≠ []) && ((loadDesktopScan content).mimetypes.map (normalizeMimeType db)).contains t

/-- The file name a descriptor file offers for `apps[n][t]`: present when the
file opens, has display name `n` and declares `t`. -/
def descriptorEntry (db : MimeDb) (fs : FileSystem) (filePath n t : Str) : Option Str :=
  match fs.content filePath with
  | none => none
  | some content =>
    if desktopAppName filePath content = n ∧ declaresType db content t = true then
      some (fileName filePath)
    else none

/-! ## A layer file as the specification describes it -/

/-- The header of the section a line lies in, as the layer parser sees the
lines: the last line before it that starts with `[` once trimmed. -/
def parserHeader (before : List Str) : Option Str :=
  ((before.map (fun c => qTrimmed (fromUtf8 c))).filter (fun l => startsWithChar l '[')).getLast?

/-- Whether the lines `before` end inside `[Default Applications]`. -/
def parserInsideDefault (before : List Str) : Bool :=
  decide (parserHeader before = some headerDefault)

/-- A `[Default Applications]` line for the key `k`: inside the section, not
blank, no comment, no header, with `=`, and with `k` as its trimmed key. -/
def isKeyLineFor (k : Str) (before : List Str) (chunk : Str) : Bool :=
  !(qTrimmed (fromUtf8 chunk)).isEmpty && !startsWithChar (qTrimmed (fromUtf8 chunk)) '#' &&
    !startsWithChar (qTrimmed (fromUtf8 chunk)) '[' && (qTrimmed (fromUtf8 chunk)).contains '=' &&
    parserInsideDefault before && decide (qTrimmed (fieldFirst '=' (qTrimmed (fromUtf8 chunk))) = k)

/-- The first non-empty trimmed identifier of the `;`-separated value of a line. -/
def lineFirstId (chunk : Str) : Option Str :=
  firstValidId (splitSkipEmpty ';' (qTrimmed (fieldRest '=' (qTrimmed (fromUtf8 chunk)))))

/-- The default the claim describes: the first identifier of the first
`[Default Applications]` line for `k`. -/
def firstLineDefault (k : Str) (chunks : List Str) : Option Str :=
  (selectFrom (isKeyLineFor k) [] chunks).head?.bind lineFirstId

/-- The default from the first `[Default Applications]` line for `k` that holds
an identifier, read with `before` already seen. -/
def firstValidLineDefaultFrom (k : Str) (before chunks : List Str) : Option Str :=
  (selectFrom (fun b c => isKeyLineFor k b c && (lineFirstId c).isSome) before chunks).head?.bind
    lineFirstId

/-- The default from the first `[Default Applications]` line for `k` that holds
an identifier. -/
def firstValidLineDefault (k : Str) (chunks : List Str) : Option Str :=
  firstValidLineDefaultFrom k [] chunks

/-- A line the `m_userDefaults` loop of `loadAllConfigs` marks: inside
`[Default Applications]`, no header, with `=`. -/
def isUserKeyLine (before : List Str) (chunk : Str) : Bool :=
  !startsWithChar (qTrimmed (fromUtf8 chunk)) '[' && parserInsideDefault before &&
    (qTrimmed (fromUtf8 chunk)).contains '='

/-- The trimmed keys of the marked lines, with `before` already seen. -/
def userKeysFrom (before chunks : List Str) : List Str :=
  (selectFrom isUserKeyLine before chunks).map
    (fun c => qTrimmed (fieldFirst '=' (qTrimmed (fromUtf8 c))))

/-- The trimmed keys of the lines with `=` inside `[Default Applications]`. -/
def userKeys (content : Str) : List Str := userKeysFrom [] (readLines content)

/-- A path `loadAllConfigs` treats as the user's generic file: it starts with the
config home and its file name does not contain `-mimeapps.list`. -/
def isUserLayer (env : QtEnv) (path : Str) : Bool :=
  env.configHome.isPrefixOf path && !containsSub desktopSuffix (fileName path)

/-- A user with config home `/h/.config` and data home `/h/.local/share`. -/
def kdeEnv : QtEnv :=
  { configHome := "/h/.config".toList
    configLocations := ["/h/.config".toList, "/etc/xdg".toList]
    dataHome := "/h/.local/share".toList
    dataLocations := ["/h/.local/share".toList, "/usr/share".toList]
    absoluteFilePath := fun dir name => dir ++ '/' :: name }

/-- The two config-home files of the `kde` scenario. -/
def kdeFs : FileSystem :=
  { content := fun p =>
      if p = "/h/.config/kde-mimeapps.list".toList then
        some "[Default Applications]\nimage/png=viewerA.desktop\n".toList
      else if p = "/h/.config/mimeapps.list".toList then
        some "[Default Applications]\nimage/png=viewerB.desktop\n".toList
      else none
    writable := fun _ => true }

/-- A desktop-specific config-home file that holds association sections. -/
def assocFs : FileSystem :=
  { content := fun p =>
      if p = "/h/.config/kde-mimeapps.list".toList then
        some "[Added Associations]\nimage/png=a.desktop;\n[Removed Associations]\nimage/png=b.desktop;\n".toList
      else if p = "/h/.config/mimeapps.list".toList then
        some "[Added Associations]\nimage/png=b.desktop;c.desktop;\n".toList
      else none
    writable := fun _ => true }

/-- An environment whose `XDG_CONFIG_DIRS` names the config home again. -/
def dupEnv : QtEnv :=
  { configHome := "/h/.config".toList
    configLocations := ["/h/.config".toList, "/h/.config".toList, "/etc/xdg".toList]
    dataHome := "/h/.local/share".toList
    dataLocations := ["/h/.local/share".toList, "/usr/share".toList]
    absoluteFilePath := fun dir name => dir ++ '/' :: name }

/-- A type database that knows every name with a slash, under that name. -/
def exDb : MimeDb :=
  { mimeTypeForName := fun name => if name.contains '/' then some name else none
    parentMimeTypes := fun _ => [] }

/-- A file system whose only file is the user's `mimeapps.list` of `kdeEnv`. -/
def userFs (content : Str) : FileSystem :=
  { content := fun p => if p = "/h/.config/mimeapps.list".toList then some content else none
    writable := fun _ => true }

/-- An application table with one application that declares `text/plain` only. -/
def exApps : List (Str × List (Str × Str)) :=
  [("App".toList, [("text/plain".toList, "fileX.desktop".toList)])]

/-- A conflict decision that approves nothing. -/
def approveNone (_warnings : List (Str × Str)) (_appName : Str) : List Str := []

/-- The application `P` that declares `text/plain` only. -/
def plainApps : List (Str × List (Str × Str)) :=
  [("P".toList, [("text/plain".toList, "p.desktop".toList)])]

/-- The application `P` that declares `text/plain` and `text/x-csrc`. -/
def plainCsrcApps : List (Str × List (Str × Str)) :=
  [("P".toList, [("text/plain".toList, "p.desktop".toList),
    ("text/x-csrc".toList, "p.desktop".toList)])]

/-- A hierarchy in which `text/x-csrc` has the parent `text/plain`. -/
def csrcHierarchy : List (Str × Str) := [("text/plain".toList, "text/x-csrc".toList)]

/-- One descriptor, `viewer.desktop`, that declares `image/png`. -/
def viewerFs : FileSystem :=
  { content := fun p =>
      if p = "/usr/share/applications/viewer.desktop".toList then
        some "[Desktop Entry]\nName=Viewer\nMimeType=image/png;\n".toList
      else none
    writable := fun _ => true }

/-- The state after `loadApplications` and `loadAllConfigs` on `viewerFs`. -/
def viewerState : XdgMimeApps :=
  loadAllConfigs kdeEnv viewerFs
    (loadApplications exDb viewerFs (XdgMimeApps.init []) ["/usr/share/applications".toList]
      (fun _ => ["/usr/share/applications/viewer.desktop".toList]))

/-- Two generic layers with association sections. -/
def twoLayerFs : FileSystem :=
  { content := fun p =>
      if p = "/h/.config/mimeapps.list".toList then
        some "[Added Associations]\nimage/png=a.desktop;b.desktop;\n[Removed Associations]\nimage/png=c.desktop;\n".toList
      else if p = "/etc/xdg/mimeapps.list".toList then
        some "[Added Associations]\nimage/png=b.desktop;c.desktop;d.desktop\n".toList
      else none
    writable := fun _ => true }

/-- A type database in which `application/x-pkcs12` is an alias of
`application/pkcs12`, the name the database reports for both (QTBUG-99509). -/
def pkcsDb : MimeDb :=
  { mimeTypeForName := fun name =>
      if name = "application/x-pkcs12".toList ∨ name = "application/pkcs12".toList then
        some "application/pkcs12".toList
      else if name.contains '/' then some name
      else none
    parentMimeTypes := fun _ => [] }

/-- An application table with one application that declares `text/plain` and
`image/png`, both with `fileX.desktop`. -/
def pairApps : List (Str × List (Str × Str)) :=
  [("App".toList,
    [("text/plain".toList, "fileX.desktop".toList), ("image/png".toList, "fileX.desktop".toList)])]

/-- A conflict decision that approves `image/png` only. -/
def approveImage (_warnings : List (Str × Str)) (_appName : Str) : List Str :=
  ["image/png".toList]

/-- A user file with two lines for `text/plain`, the second naming `fileX.desktop`. -/
def conflictDupFs : FileSystem :=
  userFs
    "[Default Applications]\ntext/plain=other.desktop\ntext/plain=fileX.desktop\nimage/png=viewer.desktop\n".toList

/-- An environment whose `XDG_CONFIG_DIRS` names `/h/.config-sys`, a directory
whose path begins with the text of the config home. -/
def sysEnv : QtEnv :=
  { configHome := "/h/.config".toList
    configLocations := ["/h/.config".toList, "/h/.config-sys".toList]
    dataHome := "/h/.local/share".toList
    dataLocations := ["/h/.local/share".toList, "/usr/share".toList]
    absoluteFilePath := fun dir name => dir ++ '/' :: name }

/-- A file system without a user file, whose only file is the generic file of
the system directory `/h/.config-sys`. -/
def sysFs : FileSystem :=
  { content := fun p =>
      if p = "/h/.config-sys/mimeapps.list".toList then
        some "[Default Applications]\ntext/plain=a.desktop\n".toList
      else none
    writable := fun _ => true }

theorem parseLine_section (ds : Bool) (x : XdgMimeApps) (sec : Section) (l : Str) :
    (parseLine ds (x, sec) l).2 = lineSection sec l := by
  unfold parseLine lineSection
  simp only
  by_cases h1 : (List.isEmpty (qTrimmed (fromUtf8 l)) || startsWithChar (qTrimmed (fromUtf8 l)) '#') = true
  · rw [if_pos h1, if_pos h1]
  · rw [if_neg h1, if_neg h1]
    by_cases h2 : startsWithChar (qTrimmed (fromUtf8 l)) '[' = true
    · rw [if_pos h2, if_pos h2]; split_ifs <;> rfl
    · rw [if_neg h2, if_neg h2]
      by_cases h3 : (!List.contains (qTrimmed (fromUtf8 l)) '=') = true
      · rw [if_pos h3]
      · rw [if_neg h3]
        cases sec <;> simp only []
        · split_ifs
          · split <;> rfl
          · rfl
        · split_ifs <;> rfl
        · split_ifs <;> rfl

theorem parseLine_defaults (ds : Bool) (x : XdgMimeApps) (sec : Section) (l : Str) :
    (parseLine ds (x, sec) l).1.m_defaults = guardedInsert x.m_defaults (lineDefault sec l) := by
  unfold parseLine lineDefault
  simp only
  by_cases h1 : (List.isEmpty (qTrimmed (fromUtf8 l)) || startsWithChar (qTrimmed (fromUtf8 l)) '#') = true
  · rw [if_pos h1, if_pos h1]; rfl
  · rw [if_neg h1, if_neg h1]
    by_cases h2 : startsWithChar (qTrimmed (fromUtf8 l)) '[' = true
    · rw [if_pos h2, if_pos h2]; split_ifs <;> rfl
    · rw [if_neg h2, if_neg h2]
      by_cases h3 : (!List.contains (qTrimmed (fromUtf8 l)) '=') = true
      · rw [if_pos h3, if_pos h3]; rfl
      · rw [if_neg h3, if_neg h3]
        cases sec
        · rfl
        · rw [if_pos rfl]
          simp only []
          cases hid : firstValidId (splitSkipEmpty ';' (qTrimmed (fieldRest '=' (qTrimmed (fromUtf8 l))))) with
          | none => simp [guardedInsert]
          | some v =>
            by_cases hc : hashContains x.m_defaults (qTrimmed (fieldFirst '=' (qTrimmed (fromUtf8 l)))) = true
            · simp [guardedInsert, hc]
            · simp [guardedInsert, hc]
        · simp only [reduceCtorEq, ↓reduceIte]
          split_ifs <;> rfl
        · simp only [reduceCtorEq, ↓reduceIte]
          split_ifs <;> rfl



theorem lookup_guardedInsert (m : List (Str × Str)) (e : Option (Str × Str)) (t : Str) :
    (guardedInsert m e).lookup t = (m.lookup t).or (e.toList.lookup t) := by
  cases e with
  | none => simp [guardedInsert]
  | some kv =>
    obtain ⟨k, v⟩ := kv
    by_cases hc : hashContains m k = true
    · simp only [guardedInsert, hc, if_true, Option.toList]
      cases hm : m.lookup t with
      | some w => simp
      | none =>
        have hne : ¬ t = k := by
          intro h
          subst h
          simp [hashContains, hm] at hc
        have hb : (t == k) = false := by simpa using hne
        simp [List.lookup, hb]
    · simp only [guardedInsert, hc, hashInsert, Option.toList]
      simp [List.lookup_append]

theorem parse_fold_lookup (ds : Bool) (t : Str) (lines : List Str) :
    ∀ (x : XdgMimeApps) (sec : Section),
      ((lines.foldl (parseLine ds) (x, sec)).1.m_defaults).lookup t =
        (x.m_defaults.lookup t).or (linesDefault t sec lines) := by
  induction lines with
  | nil => intro x sec; simp [linesDefault]
  | cons l ls ih =>
    intro x sec
    have hp : parseLine ds (x, sec) l = ((parseLine ds (x, sec) l).1, lineSection sec l) := by
      rw [← parseLine_section ds x sec l]
    rw [List.foldl_cons, hp, ih, parseLine_defaults, lookup_guardedInsert, linesDefault,
      Option.or_assoc]

theorem layerDefault_eq (fs : FileSystem) (path t : Str) :
    layerDefault fs path t =
      match fs.content path with
      | none => none
      | some content => linesDefault t Section.None (readLines content) := by
  unfold layerDefault parseMimeAppsList
  cases h : fs.content path with
  | none => rfl
  | some content => simp [parse_fold_lookup, XdgMimeApps.init]

theorem loadConfigFile_lookup (env : QtEnv) (fs : FileSystem) (x : XdgMimeApps) (path t : Str) :
    (loadConfigFile env fs x path).m_defaults.lookup t =
      (x.m_defaults.lookup t).or (layerDefault fs path t) := by
  rw [layerDefault_eq]
  unfold loadConfigFile parseMimeAppsList
  cases h : fs.content path with
  | none => simp
  | some content =>
    simp only []
    split_ifs <;> simp [parse_fold_lookup]

theorem loadConfigFold_lookup (env : QtEnv) (fs : FileSystem) (t : Str) (paths : List Str) :
    ∀ x : XdgMimeApps,
      (paths.foldl (loadConfigFile env fs) x).m_defaults.lookup t =
        (x.m_defaults.lookup t).or (paths.findSome? (fun p => layerDefault fs p t)) := by
  induction paths with
  | nil => intro x; simp
  | cons p ps ih =>
    intro x
    rw [List.foldl_cons, ih, loadConfigFile_lookup, Option.or_assoc, List.findSome?_cons]
    cases layerDefault fs p t <;> simp

theorem loadConfigPaths_lookup (env : QtEnv) (fs : FileSystem) (x : XdgMimeApps)
    (paths : List Str) (t : Str) :
    (loadConfigPaths env fs x paths).m_defaults.lookup t =
      paths.findSome? (fun p => layerDefault fs p t) := by
  unfold loadConfigPaths
  rw [loadConfigFold_lookup]
  simp [clearConfigs]

/-! ## C1: the first layer that defines a type gives its default -/

/-- C1. When `d` is the default given to `t` by the first layer of the path list
that defines `t`, then after loading the layers `getDefaultApp t` is `d`, and it
is still `d` when one more path is appended to the list. -/
theorem first_layer_default_wins (env : QtEnv) (fs : FileSystem) (x : XdgMimeApps)
    (paths : List Str) (t d : Str)
    (hfirst : paths.findSome? (fun p => layerDefault fs p t) = some d) :
    getDefaultApp (loadConfigPaths env fs x paths) t = d ∧
      ∀ extra : Str, getDefaultApp (loadConfigPaths env fs x (paths ++ [extra])) t = d := by
  constructor
  · simp [getDefaultApp, hashValue, loadConfigPaths_lookup, hfirst]
  · intro extra
    simp [getDefaultApp, hashValue, loadConfigPaths_lookup, List.findSome?_append, hfirst]

/-- C1 on the `kde` scenario: `kde-mimeapps.list` precedes `mimeapps.list`. -/
theorem first_layer_default_wins_witness :
    (getMimeAppsListPaths kdeEnv ["kde".toList]).findSome?
        (fun p => layerDefault kdeFs p "image/png".toList) = some "viewerA.desktop".toList ∧
      (getDefaultApp (loadAllConfigs kdeEnv kdeFs (XdgMimeApps.init ["kde".toList]))
          "image/png".toList = "viewerA.desktop".toList ∧
        ∀ extra : Str,
          getDefaultApp (loadConfigPaths kdeEnv kdeFs (XdgMimeApps.init ["kde".toList])
            (getMimeAppsListPaths kdeEnv ["kde".toList] ++ [extra])) "image/png".toList =
              "viewerA.desktop".toList) :=
  ⟨by decide,
    first_layer_default_wins kdeEnv kdeFs (XdgMimeApps.init ["kde".toList])
      (getMimeAppsListPaths kdeEnv ["kde".toList]) "image/png".toList "viewerA.desktop".toList
      (by decide)⟩

/-! ## C6: a desktop-specific layer leaves the association tables alone -/

theorem parseLine_added (ds : Bool) (x : XdgMimeApps) (sec : Section) (l : Str) :
    (parseLine ds (x, sec) l).1.m_addedAssociations =
      lineAssoc Section.AddedAssociations ds sec l x.m_addedAssociations := by
  unfold parseLine lineAssoc
  simp only
  by_cases h1 : (List.isEmpty (qTrimmed (fromUtf8 l)) || startsWithChar (qTrimmed (fromUtf8 l)) '#') = true
  · rw [if_pos h1, if_pos h1]
  · rw [if_neg h1, if_neg h1]
    by_cases h2 : startsWithChar (qTrimmed (fromUtf8 l)) '[' = true
    · rw [if_pos h2, if_pos h2]; split_ifs <;> rfl
    · rw [if_neg h2, if_neg h2]
      by_cases h3 : (!List.contains (qTrimmed (fromUtf8 l)) '=') = true
      · rw [if_pos h3, if_pos h3]
      · rw [if_neg h3, if_neg h3]
        cases sec <;> cases ds <;> simp
        · split_ifs
          · split <;> rfl
          · rfl
        · split_ifs
          · split <;> rfl
          · rfl

theorem parseLine_removed (ds : Bool) (x : XdgMimeApps) (sec : Section) (l : Str) :
    (parseLine ds (x, sec) l).1.m_removedAssociations =
      lineAssoc Section.RemovedAssociations ds sec l x.m_removedAssociations := by
  unfold parseLine lineAssoc
  simp only
  by_cases h1 : (List.isEmpty (qTrimmed (fromUtf8 l)) || startsWithChar (qTrimmed (fromUtf8 l)) '#') = true
  · rw [if_pos h1, if_pos h1]
  · rw [if_neg h1, if_neg h1]
    by_cases h2 : startsWithChar (qTrimmed (fromUtf8 l)) '[' = true
    · rw [if_pos h2, if_pos h2]; split_ifs <;> rfl
    · rw [if_neg h2, if_neg h2]
      by_cases h3 : (!List.contains (qTrimmed (fromUtf8 l)) '=') = true
      · rw [if_pos h3, if_pos h3]
      · rw [if_neg h3, if_neg h3]
        cases sec <;> cases ds <;> simp
        · split_ifs
          · split <;> rfl
          · rfl
        · split_ifs
          · split <;> rfl
          · rfl

theorem lineAssoc_desktop (target sec : Section) (l : Str) (table : List (Str × Str)) :
    lineAssoc target true sec l table = table := by
  unfold lineAssoc
  simp

/-- The association tables after a fold of `parseLine` depend on the starting
tables and section only. -/
theorem parse_fold_assoc_congr (ds : Bool) (lines : List Str) :
    ∀ (x y : XdgMimeApps) (sec : Section),
      x.m_addedAssociations = y.m_addedAssociations →
      x.m_removedAssociations = y.m_removedAssociations →
      (lines.foldl (parseLine ds) (x, sec)).1.m_addedAssociations =
          (lines.foldl (parseLine ds) (y, sec)).1.m_addedAssociations ∧
        (lines.foldl (parseLine ds) (x, sec)).1.m_removedAssociations =
          (lines.foldl (parseLine ds) (y, sec)).1.m_removedAssociations := by
  induction lines with
  | nil => intro x y sec ha hr; exact ⟨ha, hr⟩
  | cons l ls ih =>
    intro x y sec ha hr
    have hx : parseLine ds (x, sec) l = ((parseLine ds (x, sec) l).1, lineSection sec l) := by
      rw [← parseLine_section ds x sec l]
    have hy : parseLine ds (y, sec) l = ((parseLine ds (y, sec) l).1, lineSection sec l) := by
      rw [← parseLine_section ds y sec l]
    rw [List.foldl_cons, List.foldl_cons, hx, hy]
    apply ih
    · rw [parseLine_added, parseLine_added, ha]
    · rw [parseLine_removed, parseLine_removed, hr]

theorem parse_fold_desktop (lines : List Str) :
    ∀ (x : XdgMimeApps) (sec : Section),
      (lines.foldl (parseLine true) (x, sec)).1.m_addedAssociations = x.m_addedAssociations ∧
        (lines.foldl (parseLine true) (x, sec)).1.m_removedAssociations =
          x.m_removedAssociations := by
  induction lines with
  | nil => intro x sec; exact ⟨rfl, rfl⟩
  | cons l ls ih =>
    intro x sec
    have hx : parseLine true (x, sec) l = ((parseLine true (x, sec) l).1, lineSection sec l) := by
      rw [← parseLine_section true x sec l]
    rw [List.foldl_cons, hx]
    obtain ⟨h1, h2⟩ := ih (parseLine true (x, sec) l).1 (lineSection sec l)
    rw [h1, h2, parseLine_added, parseLine_removed, lineAssoc_desktop, lineAssoc_desktop]
    exact ⟨rfl, rfl⟩

theorem parseMimeAppsList_desktop (fs : FileSystem) (x : XdgMimeApps) (path : Str) :
    (parseMimeAppsList fs x path true).m_addedAssociations = x.m_addedAssociations ∧
      (parseMimeAppsList fs x path true).m_removedAssociations = x.m_removedAssociations := by
  unfold parseMimeAppsList
  cases fs.content path with
  | none => exact ⟨rfl, rfl⟩
  | some content => exact parse_fold_desktop (readLines content) x Section.None

theorem getAssociatedApps_congr (x y : XdgMimeApps)
    (ha : x.m_addedAssociations = y.m_addedAssociations)
    (hr : x.m_removedAssociations = y.m_removedAssociations) (t : Str) :
    getAssociatedApps x t = getAssociatedApps y t := by
  unfold getAssociatedApps
  rw [ha, hr]

theorem loadConfigFile_assoc_congr (env : QtEnv) (fs : FileSystem) (x y : XdgMimeApps)
    (path : Str) (ha : x.m_addedAssociations = y.m_addedAssociations)
    (hr : x.m_removedAssociations = y.m_removedAssociations) :
    (loadConfigFile env fs x path).m_addedAssociations =
        (loadConfigFile env fs y path).m_addedAssociations ∧
      (loadConfigFile env fs x path).m_removedAssociations =
        (loadConfigFile env fs y path).m_removedAssociations := by
  unfold loadConfigFile parseMimeAppsList
  cases h : fs.content path with
  | none => exact ⟨ha, hr⟩
  | some content =>
    simp only []
    split_ifs
    · exact parse_fold_assoc_congr _ _ x y _ ha hr
    · exact parse_fold_assoc_congr _ _ x y _ ha hr

theorem loadConfigFile_desktop (env : QtEnv) (fs : FileSystem) (x : XdgMimeApps) (path : Str)
    (hds : containsSub desktopSuffix (fileName path) = true) :
    (loadConfigFile env fs x path).m_addedAssociations = x.m_addedAssociations ∧
      (loadConfigFile env fs x path).m_removedAssociations = x.m_removedAssociations := by
  unfold loadConfigFile
  cases h : fs.content path with
  | none => exact ⟨rfl, rfl⟩
  | some content =>
    simp only [hds]
    split_ifs
    · exact parseMimeAppsList_desktop fs x path
    · exact parseMimeAppsList_desktop fs x path

theorem loadConfigFold_assoc_congr (env : QtEnv) (fs : FileSystem) (paths : List Str) :
    ∀ x y : XdgMimeApps,
      x.m_addedAssociations = y.m_addedAssociations →
      x.m_removedAssociations = y.m_removedAssociations →
      (paths.foldl (loadConfigFile env fs) x).m_addedAssociations =
          (paths.foldl (loadConfigFile env fs) y).m_addedAssociations ∧
        (paths.foldl (loadConfigFile env fs) x).m_removedAssociations =
          (paths.foldl (loadConfigFile env fs) y).m_removedAssociations := by
  induction paths with
  | nil => intro x y ha hr; exact ⟨ha, hr⟩
  | cons p ps ih =>
    intro x y ha hr
    obtain ⟨h1, h2⟩ := loadConfigFile_assoc_congr env fs x y p ha hr
    exact ih _ _ h1 h2

/-- C6. Parsing any file as a desktop-specific layer leaves `m_addedAssociations`
and `m_removedAssociations` as they were and so leaves `getAssociatedApps` the
same for every type; and a path that `loadAllConfigs` classifies as
desktop-specific can be taken out of the path list without changing
`getAssociatedApps` for any type. -/
theorem desktop_layer_contributes_no_associations (env : QtEnv) (fs : FileSystem)
    (x : XdgMimeApps) (path : Str) :
    ((parseMimeAppsList fs x path true).m_addedAssociations = x.m_addedAssociations ∧
      (parseMimeAppsList fs x path true).m_removedAssociations = x.m_removedAssociations ∧
      ∀ t : Str, getAssociatedApps (parseMimeAppsList fs x path true) t = getAssociatedApps x t) ∧
    (containsSub desktopSuffix (fileName path) = true →
      ∀ (before after : List Str) (t : Str),
        getAssociatedApps (loadConfigPaths env fs x (before ++ path :: after)) t =
          getAssociatedApps (loadConfigPaths env fs x (before ++ after)) t) := by
  obtain ⟨ha, hr⟩ := parseMimeAppsList_desktop fs x path
  refine ⟨⟨ha, hr, fun t => getAssociatedApps_congr _ _ ha hr t⟩, ?_⟩
  intro hds before after t
  unfold loadConfigPaths
  rw [List.foldl_append, List.foldl_append, List.foldl_cons]
  obtain ⟨h1, h2⟩ := loadConfigFile_desktop env fs
    (before.foldl (loadConfigFile env fs) (clearConfigs x)) path hds
  obtain ⟨h3, h4⟩ := loadConfigFold_assoc_congr env fs after _ _ h1 h2
  exact getAssociatedApps_congr _ _ h3 h4 t

/-- C6 on a `kde-mimeapps.list` that holds both association sections. -/
theorem desktop_layer_contributes_no_associations_witness :
    containsSub desktopSuffix (fileName "/h/.config/kde-mimeapps.list".toList) = true ∧
      ∀ (before after : List Str) (t : Str),
        getAssociatedApps (loadConfigPaths kdeEnv assocFs (XdgMimeApps.init ["kde".toList])
            (before ++ "/h/.config/kde-mimeapps.list".toList :: after)) t =
          getAssociatedApps (loadConfigPaths kdeEnv assocFs (XdgMimeApps.init ["kde".toList])
            (before ++ after)) t :=
  ⟨by decide,
    (desktop_layer_contributes_no_associations kdeEnv assocFs (XdgMimeApps.init ["kde".toList])
      "/h/.config/kde-mimeapps.list".toList).2 (by decide)⟩

/-! ## C9: the lookup order of `getMimeAppsListPaths` -/

theorem appendDesktopPaths_eq (env : QtEnv) (desktops : List Str) (dir : Str) :
    ∀ paths : List Str,
      appendDesktopPaths env desktops dir paths =
        paths ++ desktops.map (fun d => env.absoluteFilePath dir (d ++ desktopSuffix)) := by
  unfold appendDesktopPaths
  induction desktops with
  | nil => intro paths; simp
  | cons d ds ih => intro paths; rw [List.foldl_cons, ih]; simp

theorem foldl_append_flatMap {α : Type} (f : α → List Str) (l : List α) :
    ∀ acc : List Str, l.foldl (fun acc a => acc ++ f a) acc = acc ++ l.flatMap f := by
  induction l with
  | nil => intro acc; simp
  | cons a as ih => intro acc; rw [List.foldl_cons, ih]; simp

/-- C9. The list `getMimeAppsListPaths` returns is, in this order: the
desktop-specific files of the config home in desktop order, the generic file of
the config home, for each system config directory its desktop-specific files and
then its generic file, the two groups for the `applications` directory of the
data home, and the two groups for the `applications` directory of each system
data directory. -/
theorem getMimeAppsListPaths_order (env : QtEnv) (desktops : List Str) :
    getMimeAppsListPaths env desktops = specPaths env desktops := by
  unfold getMimeAppsListPaths specPaths
  simp only [appendDesktopPaths_eq, List.nil_append, List.append_assoc]
  rw [foldl_append_flatMap (fun dir =>
      desktops.map (fun d => env.absoluteFilePath dir (d ++ desktopSuffix)) ++
        [env.absoluteFilePath dir mimeappsName]),
    foldl_append_flatMap (fun dir =>
      desktops.map (fun d =>
          env.absoluteFilePath (env.absoluteFilePath dir "applications".toList)
            (d ++ desktopSuffix)) ++
        [env.absoluteFilePath (env.absoluteFilePath dir "applications".toList) mimeappsName])]
  simp [List.append_assoc]

/-! ## C7: what `removeDefaults` writes -/

theorem removeDefaultsLine_blank (db : MimeDb) (types : List Str) (st : RemoveScan) (c : Str)
    (h1 : (byteTrimmed c).isEmpty = true) : removeDefaultsLine db types st c = st := by
  unfold removeDefaultsLine
  simp only []
  rw [if_pos h1]

theorem removeDefaultsLine_header (db : MimeDb) (types : List Str) (st : RemoveScan) (c : Str)
    (h1 : ¬ (byteTrimmed c).isEmpty = true) (h2 : startsWithChar (byteTrimmed c) '[' = true) :
    removeDefaultsLine db types st c =
      { inDefaultSection := decide (byteTrimmed c = headerDefault)
        inAddedSection := decide (byteTrimmed c = headerAdded)
        existingContent := st.existingContent ++ [byteTrimmed c] } := by
  unfold removeDefaultsLine
  simp only []
  rw [if_neg h1, if_pos h2]

theorem removeDefaultsLine_keyed (db : MimeDb) (types : List Str) (st : RemoveScan) (c : Str)
    (h1 : ¬ (byteTrimmed c).isEmpty = true) (h2 : ¬ startsWithChar (byteTrimmed c) '[' = true) :
    removeDefaultsLine db types st c =
      if (st.inDefaultSection || st.inAddedSection) && (byteTrimmed c).contains '=' &&
          types.contains (normalizeMimeType db (qTrimmed (fieldFirst '=' (byteTrimmed c)))) then st
      else { st with existingContent := st.existingContent ++ [byteTrimmed c] } := by
  unfold removeDefaultsLine
  simp only []
  rw [if_neg h1, if_neg h2]
  cases st.inDefaultSection <;> cases st.inAddedSection <;>
    cases (byteTrimmed c).contains '=' <;>
    cases types.contains (normalizeMimeType db (qTrimmed (fieldFirst '=' (byteTrimmed c)))) <;>
    rfl

/-- An absent user file in a writable directory does not stay absent:
`removeDefaults` creates it, empty. -/
theorem removeDefaults_creates_absent_file :
    ({ content := fun _ => none, writable := fun _ => true } : FileSystem).content
        (userFilePath kdeEnv) = none ∧
    (removeDefaults kdeEnv exDb { content := fun _ => none, writable := fun _ => true }
        ["text/plain".toList]).content (userFilePath kdeEnv) = some [] := by
  decide

/-! ## C10: the config home in the system config directory list -/

/-- When the standard configuration locations name the config home at most once,
the list iterated for the system tier does not contain it. -/
theorem configDirs_excludes_single_home (env : QtEnv)
    (hone : env.configLocations.count env.configHome ≤ 1) :
    env.configHome ∉ configDirs env := by
  unfold configDirs removeOne
  intro hmem
  have hpos : 0 < (env.configLocations.erase env.configHome).count env.configHome :=
    List.count_pos_iff.mpr hmem
  rw [List.count_erase_self] at hpos
  omega

/-- C10 at the failing input: with the config home named a second time in the
standard locations, `removeOne` leaves one occurrence behind, the system tier
iterates the config home, and the user file is listed twice. -/
theorem configDirs_keeps_second_config_home :
    dupEnv.configHome ∈ configDirs dupEnv ∧
      (getMimeAppsListPaths dupEnv []).count (userFilePath dupEnv) = 2 := by
  decide

/-! ## Lemmas on trimming -/

theorem trimmedWith_eq (p : Char → Bool) (s : Str) :
    trimmedWith p s = (s.dropWhile p).rdropWhile p := rfl

theorem mem_of_mem_trimmedWith (p : Char → Bool) (s : Str) (c : Char)
    (h : c ∈ trimmedWith p s) : c ∈ s := by
  rw [trimmedWith_eq] at h
  exact (List.dropWhile_sublist p).subset ((List.rdropWhile_prefix p _).sublist.subset h)

theorem trimmedWith_snoc (p : Char → Bool) (s : Str) (x : Char) (hx : p x = true) :
    trimmedWith p (s ++ [x]) = trimmedWith p s := by
  rw [trimmedWith_eq, trimmedWith_eq, List.dropWhile_append]
  by_cases h : (List.dropWhile p s).isEmpty = true
  · rw [if_pos h]
    have hnil : List.dropWhile p s = [] := List.isEmpty_iff.mp h
    rw [hnil]
    simp [List.dropWhile_cons, hx]
  · rw [if_neg h, List.rdropWhile_concat_pos p _ x hx]

theorem dropWhile_trimmedWith (p : Char → Bool) (s : Str) :
    (trimmedWith p s).dropWhile p = trimmedWith p s := by
  rw [trimmedWith_eq]
  cases hr : List.rdropWhile p (List.dropWhile p s) with
  | nil => rfl
  | cons a r =>
    obtain ⟨t, ht⟩ := List.rdropWhile_prefix p (List.dropWhile p s)
    rw [hr] at ht
    have hhead := List.head?_dropWhile_not p s
    rw [← ht] at hhead
    simp only [List.cons_append, List.head?_cons] at hhead
    rw [List.dropWhile_cons, hhead]
    simp

theorem trimmedWith_idem (p : Char → Bool) (s : Str) :
    trimmedWith p (trimmedWith p s) = trimmedWith p s := by
  rw [trimmedWith_eq p (trimmedWith p s), dropWhile_trimmedWith, trimmedWith_eq,
    List.rdropWhile_idempotent]

theorem trimmedWith_head_not (p : Char → Bool) (s : Str) (a : Char) (r : Str)
    (h : trimmedWith p s = a :: r) : p a = false := by
  have hd := dropWhile_trimmedWith p s
  rw [h, List.dropWhile_cons] at hd
  cases hp : p a with
  | false => rfl
  | true =>
    rw [hp] at hd
    simp only [if_true] at hd
    have hlen := congrArg List.length hd
    have hle := (List.dropWhile_sublist (l := r) p).length_le
    simp only [List.length_cons] at hlen
    omega

theorem readLines_line (l rest : Str) (hl : '\n' ∉ l) :
    readLines (l ++ '\n' :: rest) = (l ++ ['\n']) :: readLines rest := by
  induction l with
  | nil => simp [readLines]
  | cons c cs ih =>
    have hc : ¬ c = '\n' := fun h => hl (by rw [h]; exact List.mem_cons_self _ _)
    have hcs : '\n' ∉ cs := fun h => hl (List.mem_cons_of_mem c h)
    rw [List.cons_append, readLines, if_neg hc, ih hcs]
    rfl

theorem writeLines_cons (l : Str) (ls : List Str) :
    writeLines (l :: ls) = l ++ '\n' :: writeLines ls := by
  simp [writeLines]

theorem readLines_writeLines (ls : List Str) (rest : Str) (h : ∀ l ∈ ls, '\n' ∉ l) :
    readLines (writeLines ls ++ rest) = ls.map (fun l => l ++ ['\n']) ++ readLines rest := by
  induction ls with
  | nil => simp [writeLines]
  | cons l ls ih =>
    rw [writeLines_cons, List.append_assoc, List.cons_append,
      readLines_line l _ (h l (List.mem_cons_self l ls)),
      ih (fun m hm => h m (List.mem_cons_of_mem l hm))]
    rfl

theorem readLines_chunk (s : Str) :
    ∀ c ∈ readLines s, ∃ l : Str, '\n' ∉ l ∧ (c = l ++ ['\n'] ∨ c = l) := by
  induction s with
  | nil => intro c hc; simp [readLines] at hc
  | cons a s ih =>
    intro c hc
    rw [readLines] at hc
    by_cases ha : a = '\n'
    · rw [if_pos ha] at hc
      rcases List.mem_cons.mp hc with h | h
      · exact ⟨[], by simp, Or.inl (by rw [h, ha]; rfl)⟩
      · exact ih c h
    · rw [if_neg ha] at hc
      cases hr : readLines s with
      | nil =>
        rw [hr] at hc
        simp only [List.mem_singleton] at hc
        refine ⟨[a], ?_, Or.inr hc⟩
        simp only [List.mem_singleton]
        exact fun h => ha h.symm
      | cons l ls =>
        rw [hr] at hc
        simp only [List.mem_cons] at hc
        rcases hc with h | h
        · obtain ⟨m, hm, hcase⟩ := ih l (by rw [hr]; exact List.mem_cons_self l ls)
          refine ⟨a :: m, ?_, ?_⟩
          · intro hmem
            rcases List.mem_cons.mp hmem with h1 | h1
            · exact ha h1.symm
            · exact hm h1
          · rcases hcase with h2 | h2
            · left; rw [h, h2]; rfl
            · right; rw [h, h2]
        · exact ih c (by rw [hr]; exact List.mem_cons_of_mem l h)

theorem byteTrimmed_chunk_no_newline (s c : Str) (hc : c ∈ readLines s) :
    '\n' ∉ byteTrimmed c := by
  obtain ⟨l, hl, hcase⟩ := readLines_chunk s c hc
  intro hmem
  rcases hcase with h | h
  · rw [h] at hmem
    unfold byteTrimmed at hmem
    rw [trimmedWith_snoc asciiIsSpace l '\n' (by decide)] at hmem
    exact hl (mem_of_mem_trimmedWith _ _ _ hmem)
  · rw [h] at hmem
    exact hl (mem_of_mem_trimmedWith _ _ _ hmem)

/-! ## The read phase of `setDefaults` -/

theorem selectFrom_append (keep : List Str → Str → Bool) (xs ys : List Str) :
    ∀ before : List Str,
      selectFrom keep before (xs ++ ys) =
        selectFrom keep before xs ++ selectFrom keep (before ++ xs) ys := by
  induction xs with
  | nil => intro before; simp [selectFrom]
  | cons x xs ih =>
    intro before
    rw [List.cons_append, selectFrom, selectFrom, ih]
    simp [List.append_assoc]

theorem mem_selectFrom_of_position (keep : List Str → Str → Bool) (before pre post : List Str)
    (c : Str) (hk : keep (before ++ pre) c = true) :
    c ∈ selectFrom keep before (pre ++ c :: post) := by
  rw [selectFrom_append, selectFrom, hk]
  simp

theorem position_of_mem_selectFrom (keep : List Str → Str → Bool) (chunks : List Str) :
    ∀ (before : List Str) (c : Str), c ∈ selectFrom keep before chunks →
      ∃ pre post : List Str, chunks = pre ++ c :: post ∧ keep (before ++ pre) c = true := by
  induction chunks with
  | nil => intro before c hc; simp [selectFrom] at hc
  | cons x xs ih =>
    intro before c hc
    rw [selectFrom, List.mem_append] at hc
    rcases hc with h | h
    · by_cases hk : keep before x = true
      · rw [if_pos hk] at h
        simp only [List.mem_singleton] at h
        subst h
        exact ⟨[], xs, rfl, by simpa using hk⟩
      · rw [if_neg hk] at h
        simp at h
    · obtain ⟨pre, post, heq, hk⟩ := ih (before ++ [x]) c h
      refine ⟨x :: pre, post, by rw [heq]; rfl, ?_⟩
      simpa [List.append_assoc] using hk

/-- Why the amended C2 asks for ASCII whitespace only: after a key that ends in
U+00A0 the writer keeps the old line (its byte-trimmed key is another name),
while the layer parser trims the no-break space and reads the old line as the
first entry for `text/plain`. -/
theorem setDefaults_round_trip_needs_ascii_spaces :
    getDefaultApp
        (loadAllConfigs kdeEnv
          (setDefaults kdeEnv exDb
            (userFs "[Default Applications]\ntext/plain\u00A0=old.desktop\n".toList)
            "x.desktop".toList ["text/plain".toList])
          (XdgMimeApps.init [])) "text/plain".toList = "old.desktop".toList := by
  decide

/-- Why the amended C2 asks for no byte order mark: the layer parser decodes each
line and so reads a header behind a byte order mark, while the writer tests the
bytes and keeps the old section as content before the section it writes; the
reload finds the old line first. -/
theorem setDefaults_round_trip_needs_no_byte_order_mark :
    Option.map fileLines
        ((setDefaults kdeEnv exDb
          (userFs "\uFEFF[Default Applications]\ntext/plain=old.desktop\n".toList)
          "x.desktop".toList ["text/plain".toList]).content (userFilePath kdeEnv)) =
      some ["\uFEFF[Default Applications]".toList, "text/plain=old.desktop".toList, [],
        "[Default Applications]".toList, "text/plain=x.desktop".toList] ∧
    getDefaultApp
        (loadAllConfigs kdeEnv
          (setDefaults kdeEnv exDb
            (userFs "\uFEFF[Default Applications]\ntext/plain=old.desktop\n".toList)
            "x.desktop".toList ["text/plain".toList])
          (XdgMimeApps.init [])) "text/plain".toList = "old.desktop".toList := by
  decide

/-! ## C5: a type the application does not declare -/

theorem lookup_cons_ne {β : Type} (m : List (Str × β)) (k t : Str) (v : β) (h : k ≠ t) :
    List.lookup t ((k, v) :: m) = List.lookup t m := by
  have hb : (t == k) = false := by simpa using fun e : t = k => h e.symm
  simp [List.lookup, hb]

theorem lookup_map_replace {β : Type} (m : List (Str × β)) (k t : Str) (v : β) (h : k ≠ t) :
    (m.map (fun e => if e.1 = k then (k, v) else e)).lookup t = m.lookup t := by
  induction m with
  | nil => rfl
  | cons e m ih =>
    obtain ⟨ek, ev⟩ := e
    rw [List.map_cons]
    by_cases hek : ek = k
    · have hrep : (if (ek, ev).1 = k then (k, v) else (ek, ev)) = (k, v) := if_pos hek
      rw [hrep, lookup_cons_ne _ k t v h, hek, lookup_cons_ne _ k t ev h, ih]
    · have hrep : (if (ek, ev).1 = k then (k, v) else (ek, ev)) = (ek, ev) := if_neg hek
      rw [hrep]
      by_cases het : t = ek
      · subst het
        simp [List.lookup]
      · rw [lookup_cons_ne _ ek t ev (fun e => het e.symm),
          lookup_cons_ne _ ek t ev (fun e => het e.symm), ih]

theorem lookup_hashInsert_ne {β : Type} (m : List (Str × β)) (k t : Str) (v : β)
    (h : k ≠ t) : (hashInsert m k v).lookup t = m.lookup t := by
  have hb : (t == k) = false := by simpa using fun e : t = k => h e.symm
  unfold hashInsert
  split_ifs
  · exact lookup_map_replace m k t v h
  · rw [List.lookup_append]
    simp [List.lookup, hb]

theorem byteTrimmed_snoc_newline (l : Str) : byteTrimmed (l ++ ['\n']) = byteTrimmed l :=
  trimmedWith_snoc asciiIsSpace l '\n' (by decide)

/-- C4 at the failing inputs. For the line `text/plain=fileY.desktop;` the layer
parser reads the default `fileY.desktop`, the application's entry is
`fileX.desktop`, and the conflict recorded for `text/plain` carries
`fileY.desktop;`, the raw text after `=`. With two lines for the type the
parser reads the first, and the conflict carries the second. -/
theorem setDefault_conflict_records_raw_text :
    (layerDefault (userFs "[Default Applications]\ntext/plain=fileY.desktop;\n".toList)
        (userFilePath kdeEnv) "text/plain".toList = some "fileY.desktop".toList ∧
      hashValue (appTable exApps "App".toList) "text/plain".toList = "fileX.desktop".toList ∧
      (setDefault kdeEnv exDb
          (userFs "[Default Applications]\ntext/plain=fileY.desktop;\n".toList)
          exApps approveNone "App".toList ["text/plain".toList]).warnings =
        [("text/plain".toList, "fileY.desktop;".toList)]) ∧
    (layerDefault
        (userFs "[Default Applications]\ntext/plain=fileY.desktop\ntext/plain=fileZ.desktop\n".toList)
        (userFilePath kdeEnv) "text/plain".toList = some "fileY.desktop".toList ∧
      (setDefault kdeEnv exDb
          (userFs "[Default Applications]\ntext/plain=fileY.desktop\ntext/plain=fileZ.desktop\n".toList)
          exApps approveNone "App".toList ["text/plain".toList]).warnings =
        [("text/plain".toList, "fileZ.desktop".toList)]) := by
  decide

/-! ## C11: the implied-support set -/

theorem hashContains_iff_mem_keys {β : Type} (m : List (Str × β)) (k : Str) :
    hashContains m k = true ↔ k ∈ m.map Prod.fst := by
  unfold hashContains
  induction m with
  | nil => simp
  | cons e m ih =>
    obtain ⟨ek, ev⟩ := e
    by_cases h : k = ek
    · subst h
      simp only [List.lookup, beq_self_eq_true, Option.isSome_some, List.map_cons,
        List.mem_cons, true_or]
    · have hb : (k == ek) = false := by simpa using h
      simp only [List.lookup, hb, List.map_cons, List.mem_cons]
      rw [ih]
      constructor
      · exact fun hm => Or.inr hm
      · rintro (h1 | h1)
        · exact absurd h1 h
        · exact h1

theorem mem_setInsert_iff (s : List Str) (k x : Str) : x ∈ setInsert s k ↔ x ∈ s ∨ x = k := by
  unfold setInsert
  split_ifs with h
  · constructor
    · exact fun hx => Or.inl hx
    · rintro (h1 | h1)
      · exact h1
      · rw [h1]; simpa using h
  · simp

theorem nodup_setInsert (s : List Str) (k : Str) (h : s.Nodup) : (setInsert s k).Nodup := by
  unfold setInsert
  split_ifs with hc
  · exact h
  · rw [List.nodup_append]
    refine ⟨h, List.nodup_singleton k, ?_⟩
    intro a ha hb
    simp only [List.mem_singleton] at hb
    rw [hb] at ha
    exact hc (by simpa using ha)

theorem implied_inner_fold (off : List (Str × Str)) (children : List Str) :
    ∀ acc : List Str,
      (∀ c, c ∈ children.foldl (fun implied child =>
          if !hashContains off child then setInsert implied child else implied) acc ↔
        c ∈ acc ∨ (c ∈ children ∧ hashContains off c = false)) ∧
      (acc.Nodup → (children.foldl (fun implied child =>
          if !hashContains off child then setInsert implied child else implied) acc).Nodup) := by
  induction children with
  | nil => intro acc; simp
  | cons child rest ih =>
    intro acc
    rw [List.foldl_cons]
    obtain ⟨ih1, ih2⟩ := ih (if !hashContains off child then setInsert acc child else acc)
    constructor
    · intro c
      rw [ih1 c]
      cases hc : hashContains off child with
      | true =>
        simp only [Bool.not_true, Bool.false_eq_true, if_false, List.mem_cons]
        constructor
        · rintro (h | ⟨h1, h2⟩)
          · exact Or.inl h
          · exact Or.inr ⟨Or.inr h1, h2⟩
        · rintro (h | ⟨h1 | h1, h2⟩)
          · exact Or.inl h
          · rw [h1, hc] at h2; exact absurd h2 (by decide)
          · exact Or.inr ⟨h1, h2⟩
      | false =>
        simp only [Bool.not_false, if_true, List.mem_cons, mem_setInsert_iff]
        constructor
        · rintro ((h | h) | ⟨h1, h2⟩)
          · exact Or.inl h
          · exact Or.inr ⟨Or.inl h, by rw [h]; exact hc⟩
          · exact Or.inr ⟨Or.inr h1, h2⟩
        · rintro (h | ⟨h1 | h1, h2⟩)
          · exact Or.inl (Or.inl h)
          · exact Or.inl (Or.inr h1)
          · exact Or.inr ⟨h1, h2⟩
    · intro hnd
      apply ih2
      split_ifs
      · exact nodup_setInsert acc child hnd
      · exact hnd

theorem implied_outer_fold (off : List (Str × Str)) (childMimeTypes : List (Str × Str))
    (keys : List Str) :
    ∀ acc : List Str,
      (∀ c, c ∈ keys.foldl (fun implied mimetype =>
          (multiValues childMimeTypes mimetype).foldl (fun implied child =>
            if !hashContains off child then setInsert implied child else implied) implied) acc ↔
        c ∈ acc ∨ ((∃ p, p ∈ keys ∧ c ∈ multiValues childMimeTypes p) ∧
          hashContains off c = false)) ∧
      (acc.Nodup → (keys.foldl (fun implied mimetype =>
          (multiValues childMimeTypes mimetype).foldl (fun implied child =>
            if !hashContains off child then setInsert implied child else implied) implied)
          acc).Nodup) := by
  induction keys with
  | nil => intro acc; simp
  | cons key rest ih =>
    intro acc
    rw [List.foldl_cons]
    obtain ⟨in1, in2⟩ := implied_inner_fold off (multiValues childMimeTypes key) acc
    obtain ⟨ih1, ih2⟩ := ih ((multiValues childMimeTypes key).foldl (fun implied child =>
      if !hashContains off child then setInsert implied child else implied) acc)
    constructor
    · intro c
      rw [ih1 c, in1 c]
      constructor
      · rintro ((h | ⟨h1, h2⟩) | ⟨⟨p, hp, hc⟩, h2⟩)
        · exact Or.inl h
        · exact Or.inr ⟨⟨key, List.mem_cons_self key rest, h1⟩, h2⟩
        · exact Or.inr ⟨⟨p, List.mem_cons_of_mem key hp, hc⟩, h2⟩
      · rintro (h | ⟨⟨p, hp, hc⟩, h2⟩)
        · exact Or.inl (Or.inl h)
        · rcases List.mem_cons.mp hp with h3 | h3
          · rw [h3] at hc
            exact Or.inl (Or.inr ⟨hc, h2⟩)
          · exact Or.inr ⟨⟨p, h3, hc⟩, h2⟩
    · intro hnd
      exact ih2 (in2 hnd)

/-- C11. For every application table, hierarchy table and application, the set
`impliedSupported` holds each type once, and holds exactly the types that the
hierarchy lists as a child of a type the application officially declares and
that the application does not officially declare; so no implied type is
officially declared. With `P` declaring only `text/plain` and `text/x-csrc` a
child of `text/plain`, the set is `text/x-csrc` alone; with `P` declaring both it
is empty. -/
theorem impliedSupported_spec (apps : List (Str × List (Str × Str)))
    (childMimeTypes : List (Str × Str)) (appName : Str) :
    (∀ c : Str, c ∈ impliedSupported apps childMimeTypes appName ↔
      (∃ p : Str, hashContains (appTable apps appName) p = true ∧
        c ∈ multiValues childMimeTypes p) ∧
      hashContains (appTable apps appName) c = false) ∧
    (impliedSupported apps childMimeTypes appName).Nodup ∧
    (∀ c : Str, c ∈ impliedSupported apps childMimeTypes appName →
      hashContains (appTable apps appName) c = false) ∧
    impliedSupported plainApps csrcHierarchy "P".toList = ["text/x-csrc".toList] ∧
    impliedSupported plainCsrcApps csrcHierarchy "P".toList = [] := by
  obtain ⟨h1, h2⟩ := implied_outer_fold (appTable apps appName) childMimeTypes
    ((appTable apps appName).map Prod.fst) []
  have hiff : ∀ c : Str, c ∈ impliedSupported apps childMimeTypes appName ↔
      (∃ p : Str, hashContains (appTable apps appName) p = true ∧
        c ∈ multiValues childMimeTypes p) ∧
      hashContains (appTable apps appName) c = false := by
    intro c
    unfold impliedSupported
    simp only []
    rw [h1 c]
    simp only [List.not_mem_nil, false_or, hashContains_iff_mem_keys]
  refine ⟨hiff, h2 List.nodup_nil, fun c hc => ((hiff c).mp hc).2, by decide, by decide⟩

/-! ## C13 and C19: the associated applications -/

theorem associated_fold (removed added : List Str) :
    ∀ acc : List Str,
      (∀ d, d ∈ added.foldl (fun result app =>
          if !removed.contains app && !result.contains app then result ++ [app] else result)
          acc ↔ d ∈ acc ∨ (d ∈ added ∧ d ∉ removed)) ∧
      (acc.Nodup → (added.foldl (fun result app =>
          if !removed.contains app && !result.contains app then result ++ [app] else result)
          acc).Nodup) := by
  induction added with
  | nil => intro acc; simp
  | cons a rest ih =>
    intro acc
    rw [List.foldl_cons]
    by_cases hr : a ∈ removed
    · have hstep : (if (!removed.contains a && !acc.contains a) = true then acc ++ [a]
          else acc) = acc := by simp [hr]
      rw [hstep]
      obtain ⟨ih1, ih2⟩ := ih acc
      refine ⟨?_, ih2⟩
      intro d
      rw [ih1 d]
      constructor
      · rintro (h | ⟨h1, h2⟩)
        · exact Or.inl h
        · exact Or.inr ⟨List.mem_cons_of_mem a h1, h2⟩
      · rintro (h | ⟨h1, h2⟩)
        · exact Or.inl h
        · rcases List.mem_cons.mp h1 with h3 | h3
          · rw [h3] at h2; exact absurd hr h2
          · exact Or.inr ⟨h3, h2⟩
    · by_cases ha : a ∈ acc
      · have hstep : (if (!removed.contains a && !acc.contains a) = true then acc ++ [a]
            else acc) = acc := by simp [ha]
        rw [hstep]
        obtain ⟨ih1, ih2⟩ := ih acc
        refine ⟨?_, ih2⟩
        intro d
        rw [ih1 d]
        constructor
        · rintro (h | ⟨h1, h2⟩)
          · exact Or.inl h
          · exact Or.inr ⟨List.mem_cons_of_mem a h1, h2⟩
        · rintro (h | ⟨h1, h2⟩)
          · exact Or.inl h
          · rcases List.mem_cons.mp h1 with h3 | h3
            · rw [h3]; exact Or.inl ha
            · exact Or.inr ⟨h3, h2⟩
      · have hstep : (if (!removed.contains a && !acc.contains a) = true then acc ++ [a]
            else acc) = acc ++ [a] := by simp [hr, ha]
        rw [hstep]
        obtain ⟨ih1, ih2⟩ := ih (acc ++ [a])
        constructor
        · intro d
          rw [ih1 d, List.mem_append, List.mem_singleton]
          constructor
          · rintro ((h | h) | ⟨h1, h2⟩)
            · exact Or.inl h
            · exact Or.inr ⟨by rw [h]; exact List.mem_cons_self a rest, by rw [h]; exact hr⟩
            · exact Or.inr ⟨List.mem_cons_of_mem a h1, h2⟩
          · rintro (h | ⟨h1, h2⟩)
            · exact Or.inl (Or.inl h)
            · rcases List.mem_cons.mp h1 with h3 | h3
              · exact Or.inl (Or.inr h3)
              · exact Or.inr ⟨h3, h2⟩
        · intro hnd
          apply ih2
          rw [List.nodup_append]
          refine ⟨hnd, List.nodup_singleton a, ?_⟩
          intro b hb hb2
          simp only [List.mem_singleton] at hb2
          rw [hb2] at hb
          exact ha hb

theorem getAssociatedApps_mem (x : XdgMimeApps) (t d : Str) :
    d ∈ getAssociatedApps x t ↔
      d ∈ multiValues x.m_addedAssociations t ∧ d ∉ multiValues x.m_removedAssociations t := by
  unfold getAssociatedApps
  simp only []
  rw [(associated_fold _ _ []).1 d]
  simp

theorem getAssociatedApps_nodup (x : XdgMimeApps) (t : Str) : (getAssociatedApps x t).Nodup := by
  unfold getAssociatedApps
  simp only []
  exact (associated_fold _ _ []).2 List.nodup_nil

/-- C13 (amended). For every state and every type `t`, `getAssociatedApps t`
returns, without duplicates, exactly the descriptors listed for `t` in the added
associations and not listed for `t` in the removed associations; the
application table that the descriptor scan fills has no influence on the
result, so a descriptor that natively declares `t` is returned exactly when it
is listed for `t` in the added associations and not in the removed ones. -/
theorem getAssociatedApps_added_minus_removed (x : XdgMimeApps) (t : Str) :
    (getAssociatedApps x t).Nodup ∧
      (∀ d : Str, d ∈ getAssociatedApps x t ↔
        d ∈ multiValues x.m_addedAssociations t ∧
          d ∉ multiValues x.m_removedAssociations t) ∧
      (∀ apps : List (Str × List (Str × Str)),
        getAssociatedApps { x with m_apps := apps } t = getAssociatedApps x t) ∧
      (∀ d : Str, nativelyDeclared x t d = true →
        (d ∈ getAssociatedApps x t ↔
          d ∈ multiValues x.m_addedAssociations t ∧
            d ∉ multiValues x.m_removedAssociations t)) :=
  ⟨getAssociatedApps_nodup x t, fun d => getAssociatedApps_mem x t d, fun _ => rfl,
    fun d _ => getAssociatedApps_mem x t d⟩

/-- C13 as stated fails: after the scan `viewer.desktop` natively declares
`image/png` and nothing removes it, yet `getAssociatedApps` does not return it. -/
theorem getAssociatedApps_omits_native_app :
    nativelyDeclared viewerState "image/png".toList "viewer.desktop".toList = true ∧
      "viewer.desktop".toList ∉
        multiValues viewerState.m_removedAssociations "image/png".toList ∧
      getAssociatedApps viewerState "image/png".toList = [] ∧
      ¬ ("viewer.desktop".toList ∈ getAssociatedApps viewerState "image/png".toList ↔
        (nativelyDeclared viewerState "image/png".toList "viewer.desktop".toList = true ∨
          "viewer.desktop".toList ∈
            multiValues viewerState.m_addedAssociations "image/png".toList) ∧
        "viewer.desktop".toList ∉
          multiValues viewerState.m_removedAssociations "image/png".toList) := by
  decide

theorem insertIds_append (k : Str) (ids : List Str) :
    ∀ table : List (Str × Str), insertIds table k ids = insertIds [] k ids ++ table := by
  unfold insertIds
  induction ids with
  | nil => intro table; rfl
  | cons id rest ih =>
    intro table
    rw [List.foldl_cons, List.foldl_cons]
    by_cases hv : (!(qTrimmed id).isEmpty) = true
    · rw [if_pos hv, if_pos hv, ih (multiInsert table k (qTrimmed id)),
        ih (multiInsert [] k (qTrimmed id))]
      simp [multiInsert]
    · rw [if_neg hv, if_neg hv]
      exact ih table

theorem lineAssoc_append (target : Section) (ds : Bool) (sec : Section) (l : Str)
    (table : List (Str × Str)) :
    lineAssoc target ds sec l table = lineAssoc target ds sec l [] ++ table := by
  unfold lineAssoc
  simp only []
  split_ifs
  · rfl
  · rfl
  · rfl
  · exact insertIds_append _ _ table
  · rfl

theorem parse_fold_assoc_append (ds : Bool) (lines : List Str) :
    ∀ (x y : XdgMimeApps) (sec : Section) (baseA baseR : List (Str × Str)),
      x.m_addedAssociations = y.m_addedAssociations ++ baseA →
      x.m_removedAssociations = y.m_removedAssociations ++ baseR →
      (lines.foldl (parseLine ds) (x, sec)).1.m_addedAssociations =
          (lines.foldl (parseLine ds) (y, sec)).1.m_addedAssociations ++ baseA ∧
        (lines.foldl (parseLine ds) (x, sec)).1.m_removedAssociations =
          (lines.foldl (parseLine ds) (y, sec)).1.m_removedAssociations ++ baseR := by
  induction lines with
  | nil => intro x y sec baseA baseR ha hr; exact ⟨ha, hr⟩
  | cons l ls ih =>
    intro x y sec baseA baseR ha hr
    have hx : parseLine ds (x, sec) l = ((parseLine ds (x, sec) l).1, lineSection sec l) := by
      rw [← parseLine_section ds x sec l]
    have hy : parseLine ds (y, sec) l = ((parseLine ds (y, sec) l).1, lineSection sec l) := by
      rw [← parseLine_section ds y sec l]
    rw [List.foldl_cons, List.foldl_cons, hx, hy]
    apply ih
    · rw [parseLine_added, parseLine_added, ha, lineAssoc_append,
        lineAssoc_append _ _ _ _ y.m_addedAssociations, List.append_assoc]
    · rw [parseLine_removed, parseLine_removed, hr, lineAssoc_append,
        lineAssoc_append _ _ _ _ y.m_removedAssociations, List.append_assoc]

theorem loadConfigFile_assoc (env : QtEnv) (fs : FileSystem) (x : XdgMimeApps) (path : Str) :
    (loadConfigFile env fs x path).m_addedAssociations =
        layerAddedTable fs path ++ x.m_addedAssociations ∧
      (loadConfigFile env fs x path).m_removedAssociations =
        layerRemovedTable fs path ++ x.m_removedAssociations := by
  unfold loadConfigFile layerAddedTable layerRemovedTable parseMimeAppsList
  cases h : fs.content path with
  | none => simp [XdgMimeApps.init]
  | some content =>
    simp only []
    split_ifs
    · exact parse_fold_assoc_append _ _ x (XdgMimeApps.init []) _ _ _ rfl rfl
    · exact parse_fold_assoc_append _ _ x (XdgMimeApps.init []) _ _ _ rfl rfl

theorem loadConfigFold_assoc_mem (env : QtEnv) (fs : FileSystem) (paths : List Str) :
    ∀ (x : XdgMimeApps) (e : Str × Str),
      (e ∈ (paths.foldl (loadConfigFile env fs) x).m_addedAssociations ↔
        e ∈ x.m_addedAssociations ∨ ∃ p ∈ paths, e ∈ layerAddedTable fs p) ∧
      (e ∈ (paths.foldl (loadConfigFile env fs) x).m_removedAssociations ↔
        e ∈ x.m_removedAssociations ∨ ∃ p ∈ paths, e ∈ layerRemovedTable fs p) := by
  induction paths with
  | nil => intro x e; simp
  | cons p ps ih =>
    intro x e
    rw [List.foldl_cons]
    obtain ⟨h1, h2⟩ := ih (loadConfigFile env fs x p) e
    obtain ⟨ha, hr⟩ := loadConfigFile_assoc env fs x p
    rw [h1, h2, ha, hr]
    simp only [List.mem_append, List.mem_cons, exists_eq_or_imp]
    constructor
    · constructor
      · rintro ((h | h) | h)
        · exact Or.inr (Or.inl h)
        · exact Or.inl h
        · exact Or.inr (Or.inr h)
      · rintro (h | h | h)
        · exact Or.inl (Or.inr h)
        · exact Or.inl (Or.inl h)
        · exact Or.inr h
    · constructor
      · rintro ((h | h) | h)
        · exact Or.inr (Or.inl h)
        · exact Or.inl h
        · exact Or.inr (Or.inr h)
      · rintro (h | h | h)
        · exact Or.inl (Or.inr h)
        · exact Or.inl (Or.inl h)
        · exact Or.inr h

theorem mem_multiValues (m : List (Str × Str)) (t d : Str) :
    d ∈ multiValues m t ↔ (t, d) ∈ m := by
  unfold multiValues
  simp only [List.mem_map, List.mem_filter, beq_iff_eq]
  constructor
  · rintro ⟨⟨k, v⟩, ⟨hm, hk⟩, hv⟩
    simp only at hk hv
    rw [← hk, ← hv]
    exact hm
  · intro h
    exact ⟨(t, d), ⟨h, rfl⟩, rfl⟩

theorem loadConfigPaths_values (env : QtEnv) (fs : FileSystem) (x : XdgMimeApps)
    (paths : List Str) (t d : Str) :
    (d ∈ multiValues (loadConfigPaths env fs x paths).m_addedAssociations t ↔
        ∃ p ∈ paths, d ∈ multiValues (layerAddedTable fs p) t) ∧
      (d ∈ multiValues (loadConfigPaths env fs x paths).m_removedAssociations t ↔
        ∃ p ∈ paths, d ∈ multiValues (layerRemovedTable fs p) t) := by
  unfold loadConfigPaths
  obtain ⟨h1, h2⟩ := loadConfigFold_assoc_mem env fs paths (clearConfigs x) (t, d)
  simp only [mem_multiValues]
  rw [h1, h2]
  simp [clearConfigs]

theorem getAssociatedApps_loaded (env : QtEnv) (fs : FileSystem) (x : XdgMimeApps)
    (paths : List Str) (t d : Str) :
    d ∈ getAssociatedApps (loadConfigPaths env fs x paths) t ↔
      (∃ p ∈ paths, d ∈ multiValues (layerAddedTable fs p) t) ∧
        ¬ ∃ p ∈ paths, d ∈ multiValues (layerRemovedTable fs p) t := by
  rw [getAssociatedApps_mem, (loadConfigPaths_values env fs x paths t d).1,
    (loadConfigPaths_values env fs x paths t d).2]

/-- C19. For every list of layers that `loadAllConfigs` does not classify as
desktop-specific and every type `t`, `getAssociatedApps t` holds no descriptor
twice, holds no descriptor that a layer lists for `t` under
`[Removed Associations]`, holds every descriptor that a layer lists for `t`
under `[Added Associations]` and no layer removes, and holds the same
descriptors for every permutation of the layers. -/
theorem getAssociatedApps_of_layers (env : QtEnv) (fs : FileSystem) (x : XdgMimeApps)
    (paths : List Str) (t : Str)
    (hnon : ∀ p ∈ paths, containsSub desktopSuffix (fileName p) = false) :
    (getAssociatedApps (loadConfigPaths env fs x paths) t).Nodup ∧
      (∀ d : Str, (∃ p ∈ paths, listsRemoved fs p t d) →
        d ∉ getAssociatedApps (loadConfigPaths env fs x paths) t) ∧
      (∀ d : Str, (∃ p ∈ paths, listsAdded fs p t d) →
        (¬ ∃ p ∈ paths, listsRemoved fs p t d) →
        d ∈ getAssociatedApps (loadConfigPaths env fs x paths) t) ∧
      ∀ permuted : List Str, permuted.Perm paths → ∀ d : Str,
        d ∈ getAssociatedApps (loadConfigPaths env fs x permuted) t ↔
          d ∈ getAssociatedApps (loadConfigPaths env fs x paths) t := by
  have hadd : ∀ d : Str, (∃ p ∈ paths, d ∈ multiValues (layerAddedTable fs p) t) ↔
      ∃ p ∈ paths, listsAdded fs p t d := by
    intro d
    constructor
    · rintro ⟨p, hp, h⟩
      refine ⟨p, hp, ?_⟩
      unfold listsAdded
      unfold layerAddedTable at h
      rw [hnon p hp] at h
      exact h
    · rintro ⟨p, hp, h⟩
      refine ⟨p, hp, ?_⟩
      unfold listsAdded at h
      unfold layerAddedTable
      rw [hnon p hp]
      exact h
  have hrem : ∀ d : Str, (∃ p ∈ paths, d ∈ multiValues (layerRemovedTable fs p) t) ↔
      ∃ p ∈ paths, listsRemoved fs p t d := by
    intro d
    constructor
    · rintro ⟨p, hp, h⟩
      refine ⟨p, hp, ?_⟩
      unfold listsRemoved
      unfold layerRemovedTable at h
      rw [hnon p hp] at h
      exact h
    · rintro ⟨p, hp, h⟩
      refine ⟨p, hp, ?_⟩
      unfold listsRemoved at h
      unfold layerRemovedTable
      rw [hnon p hp]
      exact h
  refine ⟨getAssociatedApps_nodup _ t, ?_, ?_, ?_⟩
  · intro d hr hmem
    rw [getAssociatedApps_loaded] at hmem
    exact hmem.2 ((hrem d).mpr hr)
  · intro d ha hnr
    rw [getAssociatedApps_loaded]
    exact ⟨(hadd d).mpr ha, fun h => hnr ((hrem d).mp h)⟩
  · intro permuted hperm d
    rw [getAssociatedApps_loaded, getAssociatedApps_loaded]
    have hm : ∀ p : Str, p ∈ permuted ↔ p ∈ paths := fun p => hperm.mem_iff
    constructor
    · rintro ⟨⟨p, hp, h⟩, hn⟩
      exact ⟨⟨p, (hm p).mp hp, h⟩, fun ⟨q, hq, h2⟩ => hn ⟨q, (hm q).mpr hq, h2⟩⟩
    · rintro ⟨⟨p, hp, h⟩, hn⟩
      exact ⟨⟨p, (hm p).mpr hp, h⟩, fun ⟨q, hq, h2⟩ => hn ⟨q, (hm q).mp hq, h2⟩⟩

/-- C19 on the user's generic file and the generic file of `/etc/xdg`. -/
theorem getAssociatedApps_of_layers_witness :
    (∀ p ∈ ["/h/.config/mimeapps.list".toList, "/etc/xdg/mimeapps.list".toList],
        containsSub desktopSuffix (fileName p) = false) ∧
      getAssociatedApps (loadConfigPaths kdeEnv twoLayerFs (XdgMimeApps.init [])
          ["/h/.config/mimeapps.list".toList, "/etc/xdg/mimeapps.list".toList])
        "image/png".toList = ["d.desktop".toList, "b.desktop".toList, "a.desktop".toList] ∧
      ((getAssociatedApps (loadConfigPaths kdeEnv twoLayerFs (XdgMimeApps.init [])
          ["/h/.config/mimeapps.list".toList, "/etc/xdg/mimeapps.list".toList])
          "image/png".toList).Nodup ∧
        (∀ d : Str,
          (∃ p ∈ ["/h/.config/mimeapps.list".toList, "/etc/xdg/mimeapps.list".toList],
            listsRemoved twoLayerFs p "image/png".toList d) →
          d ∉ getAssociatedApps (loadConfigPaths kdeEnv twoLayerFs (XdgMimeApps.init [])
            ["/h/.config/mimeapps.list".toList, "/etc/xdg/mimeapps.list".toList])
            "image/png".toList) ∧
        (∀ d : Str,
          (∃ p ∈ ["/h/.config/mimeapps.list".toList, "/etc/xdg/mimeapps.list".toList],
            listsAdded twoLayerFs p "image/png".toList d) →
          (¬ ∃ p ∈ ["/h/.config/mimeapps.list".toList, "/etc/xdg/mimeapps.list".toList],
            listsRemoved twoLayerFs p "image/png".toList d) →
          d ∈ getAssociatedApps (loadConfigPaths kdeEnv twoLayerFs (XdgMimeApps.init [])
            ["/h/.config/mimeapps.list".toList, "/etc/xdg/mimeapps.list".toList])
            "image/png".toList) ∧
        ∀ permuted : List Str,
          permuted.Perm ["/h/.config/mimeapps.list".toList, "/etc/xdg/mimeapps.list".toList] →
          ∀ d : Str,
            d ∈ getAssociatedApps (loadConfigPaths kdeEnv twoLayerFs (XdgMimeApps.init [])
              permuted) "image/png".toList ↔
            d ∈ getAssociatedApps (loadConfigPaths kdeEnv twoLayerFs (XdgMimeApps.init [])
              ["/h/.config/mimeapps.list".toList, "/etc/xdg/mimeapps.list".toList])
              "image/png".toList) :=
  ⟨by decide, by decide,
    getAssociatedApps_of_layers kdeEnv twoLayerFs (XdgMimeApps.init [])
      ["/h/.config/mimeapps.list".toList, "/etc/xdg/mimeapps.list".toList] "image/png".toList
      (by decide)⟩

/-! ## C14: the first descriptor that declares a type for a name wins -/

theorem lookup_hashInsert_self {β : Type} (m : List (Str × β)) (k : Str) (v : β) :
    (hashInsert m k v).lookup k = some v := by
  unfold hashInsert
  by_cases hc : hashContains m k = true
  · rw [if_pos hc]
    induction m with
    | nil => simp [hashContains] at hc
    | cons e m ih =>
      obtain ⟨ek, ev⟩ := e
      rw [List.map_cons]
      by_cases hek : ek = k
      · have hrep : (if (ek, ev).1 = k then (k, v) else (ek, ev)) = (k, v) := if_pos hek
        rw [hrep]
        simp only [List.lookup, beq_self_eq_true]
      · have hrep : (if (ek, ev).1 = k then (k, v) else (ek, ev)) = (ek, ev) := if_neg hek
        rw [hrep, lookup_cons_ne _ ek k ev hek]
        apply ih
        unfold hashContains at hc ⊢
        rw [lookup_cons_ne _ ek k ev hek] at hc
        exact hc
  · rw [if_neg hc, List.lookup_append]
    have hnone : m.lookup k = none := by
      unfold hashContains at hc
      cases h : m.lookup k with
      | none => rfl
      | some w => rw [h] at hc; simp at hc
    rw [hnone]
    simp only [Option.none_or, List.lookup, beq_self_eq_true]

theorem appTable_hashInsert_self (apps : List (Str × List (Str × Str))) (n : Str)
    (table : List (Str × Str)) : appTable (hashInsert apps n table) n = table := by
  unfold appTable
  rw [lookup_hashInsert_self]
  rfl

theorem appTable_hashInsert_ne (apps : List (Str × List (Str × Str))) (k n : Str)
    (table : List (Str × Str)) (h : k ≠ n) :
    appTable (hashInsert apps k table) n = appTable apps n := by
  unfold appTable
  rw [lookup_hashInsert_ne _ k n table h]

theorem registerMimeType_lookup (db : MimeDb) (appName appFile : Str) (x : XdgMimeApps)
    (r n t : Str) :
    (appTable (registerMimeType db appName appFile x r).m_apps n).lookup t =
      ((appTable x.m_apps n).lookup t).or
        (if appName = n ∧ normalizeMimeType db r = t ∧ t ≠ [] then some appFile else none) := by
  unfold registerMimeType
  simp only []
  by_cases he : (normalizeMimeType db r).isEmpty = true
  · rw [if_pos he]
    have hnil : normalizeMimeType db r = [] := List.isEmpty_iff.mp he
    have hcond : ¬ (appName = n ∧ normalizeMimeType db r = t ∧ t ≠ []) := by
      rintro ⟨_, h2, h3⟩
      rw [hnil] at h2
      exact h3 h2.symm
    rw [if_neg hcond]
    simp
  · rw [if_neg he]
    have hne : normalizeMimeType db r ≠ [] := fun h => he (List.isEmpty_iff.mpr h)
    simp only []
    by_cases hc : hashContains (appTable x.m_apps appName) (normalizeMimeType db r) = true
    · have hcf : (!hashContains (appTable x.m_apps appName) (normalizeMimeType db r)) = false := by
        rw [hc]; rfl
      rw [hcf]
      simp only [Bool.false_eq_true, if_false]
      by_cases hcond : appName = n ∧ normalizeMimeType db r = t ∧ t ≠ []
      · obtain ⟨h1, h2, _⟩ := hcond
        rw [← h1, ← h2]
        unfold hashContains at hc
        cases hl : (appTable x.m_apps appName).lookup (normalizeMimeType db r) with
        | none => rw [hl] at hc; simp at hc
        | some w => simp
      · rw [if_neg hcond]
        simp
    · have hcf : (!hashContains (appTable x.m_apps appName) (normalizeMimeType db r)) = true := by
        simpa using hc
      rw [hcf]
      simp only [if_true]
      by_cases hn : appName = n
      · subst hn
        rw [appTable_hashInsert_self]
        by_cases ht : normalizeMimeType db r = t
        · subst ht
          have hnone : (appTable x.m_apps appName).lookup (normalizeMimeType db r) = none := by
            unfold hashContains at hc
            cases hl : (appTable x.m_apps appName).lookup (normalizeMimeType db r) with
            | none => rfl
            | some w => rw [hl] at hc; simp at hc
          rw [lookup_hashInsert_self, hnone]
          simp [hne]
        · rw [lookup_hashInsert_ne _ _ t appFile ht]
          simp [ht]
      · rw [appTable_hashInsert_ne _ _ _ _ hn]
        simp [hn]

theorem registerMimeTypes_lookup (db : MimeDb) (appName appFile : Str) (n t : Str)
    (mimetypes : List Str) :
    ∀ x : XdgMimeApps,
      (appTable (mimetypes.foldl (registerMimeType db appName appFile) x).m_apps n).lookup t =
        ((appTable x.m_apps n).lookup t).or
          (if appName = n ∧ t ≠ [] ∧ t ∈ mimetypes.map (normalizeMimeType db) then some appFile
            else none) := by
  induction mimetypes with
  | nil => intro x; simp
  | cons r rs ih =>
    intro x
    rw [List.foldl_cons, ih, registerMimeType_lookup, Option.or_assoc]
    congr 1
    by_cases h1 : appName = n
    · by_cases h2 : t = []
      · simp [h2]
      · by_cases h3 : normalizeMimeType db r = t
        · simp [h1, h2, h3]
        · have h3' : ¬ t = normalizeMimeType db r := fun e => h3 e.symm
          simp [h1, h2, h3, h3']
    · simp [h1]

theorem loadDesktopFile_lookup (db : MimeDb) (fs : FileSystem) (x : XdgMimeApps)
    (filePath n t : Str) :
    (appTable (loadDesktopFile db fs x filePath).m_apps n).lookup t =
      ((appTable x.m_apps n).lookup t).or (descriptorEntry db fs filePath n t) := by
  unfold loadDesktopFile descriptorEntry
  cases hcontent : fs.content filePath with
  | none => simp
  | some content =>
    simp only []
    have hdecl : declaresType db content t = true ↔
        t ≠ [] ∧ t ∈ (loadDesktopScan content).mimetypes.map (normalizeMimeType db) := by
      unfold declaresType
      simp
    by_cases hempty : (loadDesktopScan content).mimetypes.isEmpty = true
    · rw [if_pos hempty]
      have hnil : (loadDesktopScan content).mimetypes = [] := List.isEmpty_iff.mp hempty
      have hcond : ¬ (desktopAppName filePath content = n ∧ declaresType db content t = true) := by
        rintro ⟨_, h2⟩
        rw [hdecl, hnil] at h2
        simp at h2
      rw [if_neg hcond]
      simp
    · rw [if_neg hempty, registerMimeTypes_lookup]
      congr 1
      by_cases h1 : desktopAppName filePath content = n
      · by_cases h2 : declaresType db content t = true
        · have h3 := hdecl.mp h2
          rw [if_pos ⟨h1, h3.1, h3.2⟩, if_pos ⟨h1, h2⟩]
        · have h3 : ¬ (t ≠ [] ∧
              t ∈ (loadDesktopScan content).mimetypes.map (normalizeMimeType db)) :=
            fun h => h2 (hdecl.mpr h)
          rw [if_neg (fun h => h3 ⟨h.2.1, h.2.2⟩), if_neg (fun h => h2 h.2)]
      · rw [if_neg (fun h => h1 h.1), if_neg (fun h => h1 h.1)]

theorem loadDesktopFiles_lookup (db : MimeDb) (fs : FileSystem) (n t : Str)
    (files : List Str) :
    ∀ x : XdgMimeApps,
      (appTable (files.foldl (loadDesktopFile db fs) x).m_apps n).lookup t =
        ((appTable x.m_apps n).lookup t).or
          (files.findSome? (fun f => descriptorEntry db fs f n t)) := by
  induction files with
  | nil => intro x; simp
  | cons f fs' ih =>
    intro x
    rw [List.foldl_cons, ih, loadDesktopFile_lookup, Option.or_assoc, List.findSome?_cons]
    cases descriptorEntry db fs f n t <;> simp

theorem loadApplications_fold (db : MimeDb) (fs : FileSystem) (entryInfoList : Str → List Str)
    (appDirs : List Str) :
    ∀ x : XdgMimeApps,
      appDirs.foldl (fun x dirPath => (entryInfoList dirPath).foldl (loadDesktopFile db fs) x) x =
        (scanOrder appDirs entryInfoList).foldl (loadDesktopFile db fs) x := by
  unfold scanOrder
  induction appDirs with
  | nil => intro x; rfl
  | cons d ds ih =>
    intro x
    rw [List.foldl_cons, ih, List.flatMap_cons, List.foldl_append]

/-- C14. After `loadApplications`, for every display name `n` and type `t` the
entry `apps[n][t]` is the file name of the first descriptor file in scan order
that opens, has display name `n` and declares the valid normalized type `t`;
the entry is absent exactly when the scan order holds no such file. -/
theorem loadApplications_first_descriptor_wins (db : MimeDb) (fs : FileSystem)
    (x : XdgMimeApps) (appDirs : List Str) (entryInfoList : Str → List Str) (n t : Str) :
    (appTable (loadApplications db fs x appDirs entryInfoList).m_apps n).lookup t =
        (scanOrder appDirs entryInfoList).findSome? (fun f => descriptorEntry db fs f n t) ∧
      ((appTable (loadApplications db fs x appDirs entryInfoList).m_apps n).lookup t = none ↔
        ∀ f ∈ scanOrder appDirs entryInfoList, descriptorEntry db fs f n t = none) := by
  have hmain : (appTable (loadApplications db fs x appDirs entryInfoList).m_apps n).lookup t =
      (scanOrder appDirs entryInfoList).findSome? (fun f => descriptorEntry db fs f n t) := by
    unfold loadApplications
    rw [loadApplications_fold, loadDesktopFiles_lookup]
    simp [clearApplications, appTable]
  refine ⟨hmain, ?_⟩
  rw [hmain, List.findSome?_eq_none_iff]

/-! ## C12: the alias spelling in a layer file -/

/-- C12 at the failing input. The user file holds
`application/pkcs12=certmgr.desktop`; after `loadAllConfigs` the query for
`application/x-pkcs12`, the name `normalizeMimeType` gives both spellings, finds
no default, while the query for the spelling of the file finds
`certmgr.desktop`. The writer does normalize the key of the same line:
`setDefaults` for `application/x-pkcs12` replaces it. -/
theorem getDefaultApp_misses_alias_line :
    normalizeMimeType pkcsDb "application/pkcs12".toList = "application/x-pkcs12".toList ∧
      normalizeMimeType pkcsDb "application/x-pkcs12".toList = "application/x-pkcs12".toList ∧
      getDefaultApp
        (loadAllConfigs kdeEnv
          (userFs "[Default Applications]\napplication/pkcs12=certmgr.desktop\n".toList)
          (XdgMimeApps.init [])) "application/x-pkcs12".toList = [] ∧
      getDefaultApp
        (loadAllConfigs kdeEnv
          (userFs "[Default Applications]\napplication/pkcs12=certmgr.desktop\n".toList)
          (XdgMimeApps.init [])) "application/pkcs12".toList = "certmgr.desktop".toList ∧
      setDefaultsContent pkcsDb "new.desktop".toList ["application/x-pkcs12".toList]
          (some "[Default Applications]\napplication/pkcs12=certmgr.desktop\n".toList) =
        "\n[Default Applications]\napplication/x-pkcs12=new.desktop\n".toList := by
  decide

/-! ## C16: an empty conflict decision cancels the operation -/

/-- C16. When the read phase of `SelectDefaultApplication::setDefault` records at
least one conflict and the conflict decision approves no type, the run ends at
the cancel: `XdgMimeApps::setDefaults` is called for no type and the file system,
the user file included, is what it was. -/
theorem setDefault_cancelled_on_empty_decision (env : QtEnv) (db : MimeDb) (fs : FileSystem)
    (apps : List (Str × List (Str × Str))) (confirm : List (Str × Str) → Str → List Str)
    (appName : Str) (mimetypes : List Str)
    (hconflict : (setDefaultScan db apps appName mimetypes
      (fs.content (userFilePath env))).warnings ≠ [])
    (hdecision : confirm (setDefaultScan db apps appName mimetypes
      (fs.content (userFilePath env))).warnings appName = []) :
    (setDefault env db fs apps confirm appName mimetypes).cancelled = true ∧
      (setDefault env db fs apps confirm appName mimetypes).calls = [] ∧
      (setDefault env db fs apps confirm appName mimetypes).fs = fs ∧
      (setDefault env db fs apps confirm appName mimetypes).fs.content (userFilePath env) =
        fs.content (userFilePath env) := by
  have hcond : (!(setDefaultScan db apps appName mimetypes
      (fs.content (userFilePath env))).warnings.isEmpty &&
      (confirm (setDefaultScan db apps appName mimetypes
        (fs.content (userFilePath env))).warnings appName).isEmpty) = true := by
    rw [hdecision]
    cases hw : (setDefaultScan db apps appName mimetypes
      (fs.content (userFilePath env))).warnings with
    | nil => exact absurd hw hconflict
    | cons a as => rfl
  unfold setDefault
  simp only []
  rw [if_pos hcond]
  exact ⟨rfl, rfl, rfl, rfl⟩

/-- C16 on a request for a conflicting type, `text/plain`, and a type without
conflict, `image/png`, with a decision that approves nothing. -/
theorem setDefault_cancelled_on_empty_decision_witness :
    (setDefaultScan exDb
        [("App".toList, [("text/plain".toList, "fileX.desktop".toList),
          ("image/png".toList, "fileX.desktop".toList)])]
        "App".toList ["text/plain".toList, "image/png".toList]
        ((userFs "[Default Applications]\ntext/plain=fileY.desktop\n".toList).content
          (userFilePath kdeEnv))).warnings ≠ [] ∧
      (setDefault kdeEnv exDb (userFs "[Default Applications]\ntext/plain=fileY.desktop\n".toList)
          [("App".toList, [("text/plain".toList, "fileX.desktop".toList),
            ("image/png".toList, "fileX.desktop".toList)])]
          approveNone "App".toList ["text/plain".toList, "image/png".toList]).calls = [] ∧
      (setDefault kdeEnv exDb (userFs "[Default Applications]\ntext/plain=fileY.desktop\n".toList)
          [("App".toList, [("text/plain".toList, "fileX.desktop".toList),
            ("image/png".toList, "fileX.desktop".toList)])]
          approveNone "App".toList ["text/plain".toList, "image/png".toList]).fs =
        userFs "[Default Applications]\ntext/plain=fileY.desktop\n".toList :=
  ⟨by decide,
    (setDefault_cancelled_on_empty_decision kdeEnv exDb
      (userFs "[Default Applications]\ntext/plain=fileY.desktop\n".toList)
      [("App".toList, [("text/plain".toList, "fileX.desktop".toList),
        ("image/png".toList, "fileX.desktop".toList)])]
      approveNone "App".toList ["text/plain".toList, "image/png".toList]
      (by decide) rfl).2.1,
    (setDefault_cancelled_on_empty_decision kdeEnv exDb
      (userFs "[Default Applications]\ntext/plain=fileY.desktop\n".toList)
      [("App".toList, [("text/plain".toList, "fileX.desktop".toList),
        ("image/png".toList, "fileX.desktop".toList)])]
      approveNone "App".toList ["text/plain".toList, "image/png".toList]
      (by decide) rfl).2.2.1⟩

/-! ## C20: what one file records in an empty defaults table -/

theorem parserHeader_append (before : List Str) (chunk : Str) :
    parserHeader (before ++ [chunk]) =
      if startsWithChar (qTrimmed (fromUtf8 chunk)) '[' then some (qTrimmed (fromUtf8 chunk))
      else parserHeader before := by
  unfold parserHeader
  by_cases h : startsWithChar (qTrimmed (fromUtf8 chunk)) '[' = true
  · simp [List.filter_append, h]
  · simp [List.filter_append, h]

theorem startsWithChar_two (l : Str) (h : startsWithChar l '[' = true) :
    startsWithChar l '#' = false := by
  cases l with
  | nil => rfl
  | cons a l =>
    simp only [startsWithChar, beq_iff_eq] at h
    rw [h]
    rfl

theorem lineSection_inside (sec : Section) (before : List Str) (c : Str)
    (hinv : sec = Section.DefaultApplications ↔ parserInsideDefault before = true) :
    lineSection sec c = Section.DefaultApplications ↔
      parserInsideDefault (before ++ [c]) = true := by
  unfold parserInsideDefault at hinv ⊢
  rw [parserHeader_append]
  unfold lineSection
  simp only []
  by_cases h2 : startsWithChar (qTrimmed (fromUtf8 c)) '[' = true
  · have hne : (qTrimmed (fromUtf8 c)).isEmpty = false := by
      cases hq : qTrimmed (fromUtf8 c) with
      | nil => rw [hq] at h2; exact absurd h2 (by decide)
      | cons a l => rfl
    rw [hne, startsWithChar_two _ h2, h2]
    simp only [Bool.or_self, Bool.false_eq_true, if_false, if_true, decide_eq_true_eq,
      Option.some.injEq]
    by_cases h3 : qTrimmed (fromUtf8 c) = headerDefault
    · simp [h3]
    · rw [if_neg h3]
      constructor
      · intro h
        split_ifs at h
      · intro h
        exact absurd h h3
  · have h2f : startsWithChar (qTrimmed (fromUtf8 c)) '[' = false := by simpa using h2
    rw [h2f]
    simp only [Bool.false_eq_true, if_false, ite_self]
    exact hinv

theorem lineDefault_lookup_spec (k : Str) (sec : Section) (before : List Str) (c : Str)
    (hinv : sec = Section.DefaultApplications ↔ parserInsideDefault before = true) :
    (lineDefault sec c).toList.lookup k =
      if (isKeyLineFor k before c && (lineFirstId c).isSome) = true then lineFirstId c
      else none := by
  unfold lineDefault isKeyLineFor lineFirstId
  simp only []
  by_cases h1 : ((qTrimmed (fromUtf8 c)).isEmpty || startsWithChar (qTrimmed (fromUtf8 c)) '#') = true
  · rw [if_pos h1]
    have : (!(qTrimmed (fromUtf8 c)).isEmpty && !startsWithChar (qTrimmed (fromUtf8 c)) '#') = false := by
      revert h1
      cases (qTrimmed (fromUtf8 c)).isEmpty <;> cases startsWithChar (qTrimmed (fromUtf8 c)) '#' <;> simp
    rw [this]
    simp
  · rw [if_neg h1]
    have h1' : (!(qTrimmed (fromUtf8 c)).isEmpty && !startsWithChar (qTrimmed (fromUtf8 c)) '#') = true := by
      revert h1
      cases (qTrimmed (fromUtf8 c)).isEmpty <;> cases startsWithChar (qTrimmed (fromUtf8 c)) '#' <;> simp
    rw [h1']
    by_cases h2 : startsWithChar (qTrimmed (fromUtf8 c)) '[' = true
    · rw [if_pos h2, h2]
      simp
    · rw [if_neg h2]
      have h2f : startsWithChar (qTrimmed (fromUtf8 c)) '[' = false := by simpa using h2
      rw [h2f]
      by_cases h3 : (!(qTrimmed (fromUtf8 c)).contains '=') = true
      · rw [if_pos h3]
        have : (qTrimmed (fromUtf8 c)).contains '=' = false := by simpa using h3
        rw [this]
        simp
      · rw [if_neg h3]
        have h3t : (qTrimmed (fromUtf8 c)).contains '=' = true := by simpa using h3
        rw [h3t]
        by_cases hs : sec = Section.DefaultApplications
        · rw [if_pos hs, hinv.mp hs]
          cases hid : firstValidId (splitSkipEmpty ';' (qTrimmed (fieldRest '=' (qTrimmed (fromUtf8 c))))) with
          | none => simp
          | some v =>
            by_cases hk : qTrimmed (fieldFirst '=' (qTrimmed (fromUtf8 c))) = k
            · simp [Option.toList, List.lookup, hk]
            · have hb : (k == qTrimmed (fieldFirst '=' (qTrimmed (fromUtf8 c)))) = false := by
                simpa using fun e : k = qTrimmed (fieldFirst '=' (qTrimmed (fromUtf8 c))) => hk e.symm
              simp [Option.toList, List.lookup, hk, hb]
        · rw [if_neg hs]
          have : parserInsideDefault before = false := by
            cases hp : parserInsideDefault before with
            | false => rfl
            | true => exact absurd (hinv.mpr hp) hs
          rw [this]
          simp

theorem linesDefault_spec (k : Str) (chunks : List Str) :
    ∀ (sec : Section) (before : List Str),
      (sec = Section.DefaultApplications ↔ parserInsideDefault before = true) →
      linesDefault k sec chunks = firstValidLineDefaultFrom k before chunks := by
  induction chunks with
  | nil => intro sec before _; rfl
  | cons c cs ih =>
    intro sec before hinv
    unfold firstValidLineDefaultFrom
    rw [linesDefault, selectFrom, lineDefault_lookup_spec k sec before c hinv,
      ih (lineSection sec c) (before ++ [c]) (lineSection_inside sec before c hinv)]
    unfold firstValidLineDefaultFrom
    by_cases hkeep : (isKeyLineFor k before c && (lineFirstId c).isSome) = true
    · rw [if_pos hkeep, if_pos hkeep]
      simp only [Bool.and_eq_true] at hkeep
      cases hid : lineFirstId c with
      | none => rw [hid] at hkeep; simp at hkeep
      | some v => simp [hid]
    · rw [if_neg hkeep, if_neg hkeep]
      simp

theorem parserInsideDefault_nil : parserInsideDefault [] = false := by decide

theorem linesDefault_none_spec (k : Str) (chunks : List Str) :
    linesDefault k Section.None chunks = firstValidLineDefault k chunks := by
  unfold firstValidLineDefault
  apply linesDefault_spec
  rw [parserInsideDefault_nil]
  constructor
  · intro h; exact absurd h (by decide)
  · intro h; exact absurd h (by decide)

theorem firstValidLineDefault_position (k v : Str) (chunks : List Str)
    (hv : firstValidLineDefault k chunks = some v) :
    ∃ (pre : List Str) (c : Str) (post : List Str),
      chunks = pre ++ c :: post ∧ isKeyLineFor k pre c = true ∧ lineFirstId c = some v := by
  unfold firstValidLineDefault firstValidLineDefaultFrom at hv
  cases hsel : selectFrom (fun b c => isKeyLineFor k b c && (lineFirstId c).isSome) []
      chunks with
  | nil => rw [hsel] at hv; simp at hv
  | cons c rest =>
    rw [hsel] at hv
    simp only [List.head?_cons, Option.some_bind] at hv
    obtain ⟨pre, post, heq, hkeep⟩ := position_of_mem_selectFrom _ chunks [] c
      (by rw [hsel]; exact List.mem_cons_self c rest)
    simp only [List.nil_append, Bool.and_eq_true] at hkeep
    exact ⟨pre, c, post, heq, hkeep.1, hv⟩

/-- C20 (amended). When a file is parsed into an empty defaults table, the
default recorded for a key `k` is the first non-empty trimmed identifier of the
`;`-separated value of the first `[Default Applications]` line for `k` that
holds such an identifier; every recorded default comes from a line inside
`[Default Applications]` that is not blank, no comment and has `=`. -/
theorem parse_records_first_valid_line (fs : FileSystem) (x : XdgMimeApps) (path : Str)
    (desktopSpecific : Bool) (content k : Str) (hempty : x.m_defaults = [])
    (hfile : fs.content path = some content) :
    (parseMimeAppsList fs x path desktopSpecific).m_defaults.lookup k =
        firstValidLineDefault k (readLines content) ∧
      ∀ v : Str, (parseMimeAppsList fs x path desktopSpecific).m_defaults.lookup k = some v →
        ∃ (pre : List Str) (c : Str) (post : List Str),
          readLines content = pre ++ c :: post ∧ isKeyLineFor k pre c = true ∧
            lineFirstId c = some v := by
  have hmain : (parseMimeAppsList fs x path desktopSpecific).m_defaults.lookup k =
      firstValidLineDefault k (readLines content) := by
    unfold parseMimeAppsList
    rw [hfile]
    simp only []
    rw [parse_fold_lookup, hempty, linesDefault_none_spec]
    simp
  refine ⟨hmain, ?_⟩
  intro v hv
  rw [hmain] at hv
  exact firstValidLineDefault_position k v _ hv

/-- C20 on a file whose first line for `text/plain` holds no identifier. -/
theorem parse_records_first_valid_line_witness :
    (XdgMimeApps.init []).m_defaults = [] ∧
      (userFs "t/a=z\n[Default Applications]\n#text/plain=c\ntext/plain=;\ntext/plain= a.desktop ;b\ntext/plain=c\n".toList).content
        (userFilePath kdeEnv) =
        some "t/a=z\n[Default Applications]\n#text/plain=c\ntext/plain=;\ntext/plain= a.desktop ;b\ntext/plain=c\n".toList ∧
      (parseMimeAppsList
        (userFs "t/a=z\n[Default Applications]\n#text/plain=c\ntext/plain=;\ntext/plain= a.desktop ;b\ntext/plain=c\n".toList)
        (XdgMimeApps.init []) (userFilePath kdeEnv) false).m_defaults.lookup "text/plain".toList =
        some "a.desktop".toList ∧
      (parseMimeAppsList
        (userFs "t/a=z\n[Default Applications]\n#text/plain=c\ntext/plain=;\ntext/plain= a.desktop ;b\ntext/plain=c\n".toList)
        (XdgMimeApps.init []) (userFilePath kdeEnv) false).m_defaults.lookup "text/plain".toList =
        firstValidLineDefault "text/plain".toList
          (readLines "t/a=z\n[Default Applications]\n#text/plain=c\ntext/plain=;\ntext/plain= a.desktop ;b\ntext/plain=c\n".toList) :=
  ⟨rfl, by decide, by decide,
    (parse_records_first_valid_line
      (userFs "t/a=z\n[Default Applications]\n#text/plain=c\ntext/plain=;\ntext/plain= a.desktop ;b\ntext/plain=c\n".toList)
      (XdgMimeApps.init []) (userFilePath kdeEnv) false
      "t/a=z\n[Default Applications]\n#text/plain=c\ntext/plain=;\ntext/plain= a.desktop ;b\ntext/plain=c\n".toList
      "text/plain".toList rfl (by decide)).1⟩

/-- C20 as stated fails: the first `[Default Applications]` line for
`text/plain` holds no identifier, so by the claim nothing is recorded and the
later line is ignored; the parser records the identifier of the later line. -/
theorem parse_takes_later_line_after_empty_value :
    firstLineDefault "text/plain".toList
        (readLines "[Default Applications]\ntext/plain=;\ntext/plain=b.desktop\n".toList) = none ∧
      (parseMimeAppsList
        (userFs "[Default Applications]\ntext/plain=;\ntext/plain=b.desktop\n".toList)
        (XdgMimeApps.init []) (userFilePath kdeEnv) false).m_defaults.lookup "text/plain".toList =
        some "b.desktop".toList ∧
      (parseMimeAppsList
        (userFs "[Default Applications]\ntext/plain=;\ntext/plain=b.desktop\n".toList)
        (XdgMimeApps.init []) (userFilePath kdeEnv) false).m_defaults.lookup "text/plain".toList ≠
        firstLineDefault "text/plain".toList
          (readLines "[Default Applications]\ntext/plain=;\ntext/plain=b.desktop\n".toList) := by
  decide

/-! ## C15: the user-default set -/

theorem userDefaultsLine_header (st : List Str × Bool) (c : Str)
    (h : startsWithChar (qTrimmed (fromUtf8 c)) '[' = true) :
    userDefaultsLine st c = (st.1, decide (qTrimmed (fromUtf8 c) = headerDefault)) := by
  unfold userDefaultsLine
  simp only []
  rw [if_pos h]

theorem userDefaultsLine_other (st : List Str × Bool) (c : Str)
    (h : startsWithChar (qTrimmed (fromUtf8 c)) '[' = false) :
    userDefaultsLine st c =
      if (st.2 && (qTrimmed (fromUtf8 c)).contains '=') = true then
        (setInsert st.1 (qTrimmed (fieldFirst '=' (qTrimmed (fromUtf8 c)))), st.2)
      else st := by
  unfold userDefaultsLine
  simp only []
  rw [h]
  simp only [Bool.false_eq_true, if_false]

theorem userDefaults_fold (t : Str) (chunks : List Str) :
    ∀ (before : List Str) (st : List Str × Bool), st.2 = parserInsideDefault before →
      (t ∈ (chunks.foldl userDefaultsLine st).1 ↔ t ∈ st.1 ∨ t ∈ userKeysFrom before chunks) := by
  induction chunks with
  | nil => intro before st _; simp [userKeysFrom, selectFrom]
  | cons c cs ih =>
    intro before st hst
    rw [List.foldl_cons]
    unfold userKeysFrom
    rw [selectFrom]
    by_cases h : startsWithChar (qTrimmed (fromUtf8 c)) '[' = true
    · have hkeep : isUserKeyLine before c = false := by
        unfold isUserKeyLine; rw [h]; rfl
      rw [userDefaultsLine_header st c h, hkeep, ih (before ++ [c]) _ (by
        unfold parserInsideDefault
        rw [parserHeader_append, if_pos h]
        simp)]
      simp [userKeysFrom]
    · have hf : startsWithChar (qTrimmed (fromUtf8 c)) '[' = false := by simpa using h
      have hin : parserInsideDefault (before ++ [c]) = parserInsideDefault before := by
        unfold parserInsideDefault
        rw [parserHeader_append, if_neg h]
      rw [userDefaultsLine_other st c hf]
      have hkeep : isUserKeyLine before c = (st.2 && (qTrimmed (fromUtf8 c)).contains '=') := by
        unfold isUserKeyLine
        rw [hf, ← hst]
        rfl
      rw [hkeep]
      by_cases hk : (st.2 && (qTrimmed (fromUtf8 c)).contains '=') = true
      · rw [if_pos hk, if_pos hk, ih (before ++ [c]) _ (by rw [hin]; exact hst)]
        simp only [mem_setInsert_iff, userKeysFrom, List.singleton_append, List.map_cons,
          List.mem_cons]
        constructor
        · rintro ((h1 | h1) | h1)
          · exact Or.inl h1
          · exact Or.inr (Or.inl h1)
          · exact Or.inr (Or.inr h1)
        · rintro (h1 | h1 | h1)
          · exact Or.inl (Or.inl h1)
          · exact Or.inl (Or.inr h1)
          · exact Or.inr h1
      · rw [if_neg hk, if_neg hk, ih (before ++ [c]) st (by rw [hin]; exact hst)]
        simp [userKeysFrom]

theorem parseLine_userDefaults (ds : Bool) (x : XdgMimeApps) (sec : Section) (l : Str) :
    (parseLine ds (x, sec) l).1.m_userDefaults = x.m_userDefaults := by
  unfold parseLine
  simp only []
  by_cases h1 : (List.isEmpty (qTrimmed (fromUtf8 l)) || startsWithChar (qTrimmed (fromUtf8 l)) '#') = true
  · rw [if_pos h1]
  · rw [if_neg h1]
    by_cases h2 : startsWithChar (qTrimmed (fromUtf8 l)) '[' = true
    · rw [if_pos h2]; split_ifs <;> rfl
    · rw [if_neg h2]
      by_cases h3 : (!List.contains (qTrimmed (fromUtf8 l)) '=') = true
      · rw [if_pos h3]
      · rw [if_neg h3]
        cases sec <;> simp only []
        · split_ifs
          · split <;> rfl
          · rfl
        · split_ifs <;> rfl
        · split_ifs <;> rfl

theorem parse_fold_userDefaults (ds : Bool) (lines : List Str) :
    ∀ (x : XdgMimeApps) (sec : Section),
      (lines.foldl (parseLine ds) (x, sec)).1.m_userDefaults = x.m_userDefaults := by
  induction lines with
  | nil => intro x sec; rfl
  | cons l ls ih =>
    intro x sec
    have hx : parseLine ds (x, sec) l = ((parseLine ds (x, sec) l).1, lineSection sec l) := by
      rw [← parseLine_section ds x sec l]
    rw [List.foldl_cons, hx, ih, parseLine_userDefaults]

theorem loadConfigFile_userDefaults (env : QtEnv) (fs : FileSystem) (x : XdgMimeApps)
    (path t : Str) :
    t ∈ (loadConfigFile env fs x path).m_userDefaults ↔
      t ∈ x.m_userDefaults ∨
        (isUserLayer env path = true ∧
          ∃ content : Str, fs.content path = some content ∧ t ∈ userKeys content) := by
  unfold loadConfigFile isUserLayer
  cases hc : fs.content path with
  | none => simp
  | some content =>
    simp only []
    have hparse : (parseMimeAppsList fs x path
        (containsSub desktopSuffix (fileName path))).m_userDefaults = x.m_userDefaults := by
      unfold parseMimeAppsList
      rw [hc]
      exact parse_fold_userDefaults _ _ x Section.None
    by_cases hu : (env.configHome.isPrefixOf path &&
        !containsSub desktopSuffix (fileName path)) = true
    · rw [if_pos hu]
      simp only []
      rw [userDefaults_fold t (readLines content) [] _ (by rw [parserInsideDefault_nil]),
        hparse]
      simp [hu, userKeys]
    · rw [if_neg hu, hparse]
      simp [hu]

theorem loadConfigFold_userDefaults (env : QtEnv) (fs : FileSystem) (t : Str)
    (paths : List Str) :
    ∀ x : XdgMimeApps,
      (t ∈ (paths.foldl (loadConfigFile env fs) x).m_userDefaults ↔
        t ∈ x.m_userDefaults ∨
          ∃ p ∈ paths, isUserLayer env p = true ∧
            ∃ content : Str, fs.content p = some content ∧ t ∈ userKeys content) := by
  induction paths with
  | nil => intro x; simp
  | cons p ps ih =>
    intro x
    rw [List.foldl_cons, ih, loadConfigFile_userDefaults]
    simp only [List.mem_cons, exists_eq_or_imp]
    constructor
    · rintro ((h | h) | h)
      · exact Or.inl h
      · exact Or.inr (Or.inl h)
      · exact Or.inr (Or.inr h)
    · rintro (h | h | h)
      · exact Or.inl (Or.inl h)
      · exact Or.inl (Or.inr h)
      · exact Or.inr h

theorem layerDefault_mem_userKeys (fs : FileSystem) (path t d content : Str)
    (hc : fs.content path = some content) (hd : layerDefault fs path t = some d) :
    t ∈ userKeys content := by
  rw [layerDefault_eq, hc] at hd
  simp only [] at hd
  rw [linesDefault_none_spec] at hd
  obtain ⟨pre, c, post, heq, hkey, _⟩ := firstValidLineDefault_position t d _ hd
  unfold isKeyLineFor at hkey
  simp only [Bool.and_eq_true, Bool.not_eq_true', decide_eq_true_eq] at hkey
  obtain ⟨⟨⟨⟨⟨_, _⟩, h3⟩, h4⟩, h5⟩, h6⟩ := hkey
  unfold userKeys userKeysFrom
  rw [List.mem_map]
  refine ⟨c, ?_, h6⟩
  rw [heq]
  apply mem_selectFrom_of_position
  unfold isUserKeyLine
  rw [List.nil_append, h3, h4, h5]
  rfl

/-- What `loadAllConfigs` marks. After the layers are loaded, `hasUserDefault t` is true
exactly when some file of the lookup list that opens, whose path starts with
the config home and whose name does not contain `-mimeapps.list`, holds inside
`[Default Applications]` a line with `=` whose trimmed key is `t`, whether or not
that line sets a default; so it is true whenever such a file gives `t` a
default. -/
theorem hasUserDefault_marks_every_key (env : QtEnv) (fs : FileSystem) (x : XdgMimeApps)
    (paths : List Str) (t : Str) :
    (hasUserDefault (loadConfigPaths env fs x paths) t = true ↔
      ∃ p ∈ paths, isUserLayer env p = true ∧
        ∃ content : Str, fs.content p = some content ∧ t ∈ userKeys content) ∧
    (∀ p ∈ paths, isUserLayer env p = true → ∀ d : Str, layerDefault fs p t = some d →
      hasUserDefault (loadConfigPaths env fs x paths) t = true) := by
  have hiff : hasUserDefault (loadConfigPaths env fs x paths) t = true ↔
      ∃ p ∈ paths, isUserLayer env p = true ∧
        ∃ content : Str, fs.content p = some content ∧ t ∈ userKeys content := by
    unfold hasUserDefault loadConfigPaths
    rw [List.contains_eq_any_beq, List.any_eq_true]
    have hmem : (∃ y ∈ (List.foldl (loadConfigFile env fs) (clearConfigs x)
        paths).m_userDefaults, (t == y) = true) ↔
        t ∈ (List.foldl (loadConfigFile env fs) (clearConfigs x) paths).m_userDefaults := by
      constructor
      · rintro ⟨y, hy, hyt⟩
        rw [beq_iff_eq] at hyt
        rw [hyt]; exact hy
      · intro h
        exact ⟨t, h, by simp⟩
    rw [hmem, loadConfigFold_userDefaults]
    simp [clearConfigs]
  refine ⟨hiff, ?_⟩
  intro p hp hu d hd
  rw [hiff]
  cases hc : fs.content p with
  | none =>
    rw [layerDefault_eq, hc] at hd
    simp at hd
  | some content =>
    exact ⟨p, hp, hu, content, hc, layerDefault_mem_userKeys fs p t d content hc hd⟩

/-- On the `kde` scenario the user's generic file gives `image/png` a default. -/
theorem hasUserDefault_marks_every_key_witness :
    userFilePath kdeEnv ∈ getMimeAppsListPaths kdeEnv ["kde".toList] ∧
      isUserLayer kdeEnv (userFilePath kdeEnv) = true ∧
      layerDefault kdeFs (userFilePath kdeEnv) "image/png".toList =
        some "viewerB.desktop".toList ∧
      hasUserDefault (loadAllConfigs kdeEnv kdeFs (XdgMimeApps.init ["kde".toList]))
        "image/png".toList = true :=
  ⟨by decide, by decide, by decide,
    (hasUserDefault_marks_every_key kdeEnv kdeFs (XdgMimeApps.init ["kde".toList])
      (getMimeAppsListPaths kdeEnv ["kde".toList]) "image/png".toList).2
      (userFilePath kdeEnv) (by decide) (by decide) "viewerB.desktop".toList (by decide)⟩

/-- A line without a value: the line `text/plain=` of the user's generic file sets no
default (parsing the file alone yields none for `text/plain`), yet
`hasUserDefault` is true for `text/plain`. -/
theorem hasUserDefault_true_without_default :
    layerDefault (userFs "[Default Applications]\ntext/plain=\n".toList) (userFilePath kdeEnv)
        "text/plain".toList = none ∧
      getDefaultApp
        (loadAllConfigs kdeEnv (userFs "[Default Applications]\ntext/plain=\n".toList)
          (XdgMimeApps.init [])) "text/plain".toList = [] ∧
      hasUserDefault
        (loadAllConfigs kdeEnv (userFs "[Default Applications]\ntext/plain=\n".toList)
          (XdgMimeApps.init [])) "text/plain".toList = true := by
  decide

/-- C15 at the failing input. There is no user file; the generic file of the
system directory `/h/.config-sys`, whose path begins with the text of the
config home `/h/.config`, gives `text/plain` a default. After `loadAllConfigs`
`hasUserDefault` is true for `text/plain`, although the user's generic file
gives it no default. -/
theorem hasUserDefault_marks_system_file :
    userFilePath sysEnv = "/h/.config/mimeapps.list".toList ∧
      sysFs.content (userFilePath sysEnv) = none ∧
      layerDefault sysFs (userFilePath sysEnv) "text/plain".toList = none ∧
      "/h/.config-sys/mimeapps.list".toList ∈ getMimeAppsListPaths sysEnv [] ∧
      "/h/.config-sys".toList ∈ configDirs sysEnv ∧
      getDefaultApp (loadAllConfigs sysEnv sysFs (XdgMimeApps.init []))
        "text/plain".toList = "a.desktop".toList ∧
      hasUserDefault (loadAllConfigs sysEnv sysFs (XdgMimeApps.init []))
        "text/plain".toList = true := by
  decide

/-! ## C18: the layout of the file `setDefaults` writes -/

theorem dropUnapproved_subset (warnings : List (Str × Str)) (approved mimetypes : List Str) :
    ∀ m ∈ dropUnapproved warnings approved mimetypes, m ∈ mimetypes := by
  unfold dropUnapproved
  generalize warnings.map Prod.fst = keys
  induction keys generalizing mimetypes with
  | nil => intro m hm; exact hm
  | cons k ks ih =>
    intro m hm
    rw [List.foldl_cons] at hm
    have h2 := ih _ m hm
    split_ifs at h2
    · exact (List.mem_filter.mp h2).1
    · exact h2

/-- A line that was there before stays: the user file holds the lines `text/plain=other.desktop`
and `text/plain=fileX.desktop`; a conflict is recorded for `text/plain`, only
`image/png` is approved, and afterwards the section still holds a line for
`text/plain` that names `fileX.desktop`, the selected application's descriptor. -/
theorem setDefault_leaves_line_naming_new_app :
    (setDefault kdeEnv exDb conflictDupFs pairApps approveImage "App".toList
        ["text/plain".toList, "image/png".toList]).warnings.lookup "text/plain".toList =
        some "other.desktop".toList ∧
      (setDefault kdeEnv exDb conflictDupFs pairApps approveImage "App".toList
        ["text/plain".toList, "image/png".toList]).cancelled = false ∧
      (setDefault kdeEnv exDb conflictDupFs pairApps approveImage "App".toList
        ["text/plain".toList, "image/png".toList]).mimetypes = ["image/png".toList] ∧
      hashValue (appTable pairApps "App".toList) "text/plain".toList = "fileX.desktop".toList ∧
      Option.map fileLines
        ((setDefault kdeEnv exDb conflictDupFs pairApps approveImage "App".toList
          ["text/plain".toList, "image/png".toList]).fs.content (userFilePath kdeEnv)) =
        some [[], "[Default Applications]".toList, "text/plain=other.desktop".toList,
          "text/plain=fileX.desktop".toList, "image/png=fileX.desktop".toList] := by
  decide

/-! ## The layer parser's reading of a type that `setDefaults` is not asked for -/

/-- C21 at the failing inputs. The user file assigns `text/plain` to
`fileX.desktop`, the selected application's own descriptor, written with a
trailing `;`: the layer parser reads `fileX.desktop`, yet `setDefault` records
a conflict for `text/plain`. Without the `;` no conflict is recorded. With a
second line for the type the parser still reads `fileX.desktop`, and a
conflict is recorded from the second line. -/
theorem setDefault_conflict_with_own_descriptor :
    (layerDefault (userFs "[Default Applications]\ntext/plain=fileX.desktop;\n".toList)
        (userFilePath kdeEnv) "text/plain".toList = some "fileX.desktop".toList ∧
      hashValue (appTable exApps "App".toList) "text/plain".toList = "fileX.desktop".toList ∧
      (setDefault kdeEnv exDb
          (userFs "[Default Applications]\ntext/plain=fileX.desktop;\n".toList)
          exApps approveNone "App".toList ["text/plain".toList]).warnings =
        [("text/plain".toList, "fileX.desktop;".toList)] ∧
      (setDefault kdeEnv exDb
          (userFs "[Default Applications]\ntext/plain=fileX.desktop;\n".toList)
          exApps approveNone "App".toList ["text/plain".toList]).cancelled = true) ∧
    (setDefault kdeEnv exDb
        (userFs "[Default Applications]\ntext/plain=fileX.desktop\n".toList)
        exApps approveNone "App".toList ["text/plain".toList]).warnings = [] ∧
    (layerDefault
        (userFs "[Default Applications]\ntext/plain=fileX.desktop\ntext/plain=other.desktop\n".toList)
        (userFilePath kdeEnv) "text/plain".toList = some "fileX.desktop".toList ∧
      (setDefault kdeEnv exDb
          (userFs "[Default Applications]\ntext/plain=fileX.desktop\ntext/plain=other.desktop\n".toList)
          exApps approveNone "App".toList ["text/plain".toList]).warnings =
        [("text/plain".toList, "other.desktop".toList)]) := by
  decide

/-! ## C22: `removeDefaults` twice -/

theorem byteTrimmed_trimmed_chunk (c : Str) :
    byteTrimmed (byteTrimmed c ++ ['\n']) = byteTrimmed c := by
  rw [byteTrimmed_snoc_newline]
  exact trimmedWith_idem asciiIsSpace c

/-- Reading the kept lines again keeps them all and ends in the same section. -/
theorem removeDefaults_refold (db : MimeDb) (types : List Str) (chunks : List Str) :
    ∀ (st st2 : RemoveScan), st2.inDefaultSection = st.inDefaultSection →
      st2.inAddedSection = st.inAddedSection →
      ∃ kept : List Str,
        (chunks.foldl (removeDefaultsLine db types) st).existingContent =
          st.existingContent ++ kept ∧
        (∀ l ∈ kept, ∃ c ∈ chunks, byteTrimmed c = l) ∧
        (kept.map (fun l => l ++ ['\n'])).foldl (removeDefaultsLine db types) st2 =
          { inDefaultSection := (chunks.foldl (removeDefaultsLine db types) st).inDefaultSection
            inAddedSection := (chunks.foldl (removeDefaultsLine db types) st).inAddedSection
            existingContent := st2.existingContent ++ kept } := by
  induction chunks with
  | nil =>
    intro st st2 hd ha
    refine ⟨[], by simp, by simp, ?_⟩
    cases st2
    simp only [List.map_nil, List.foldl_nil, List.append_nil] at hd ha ⊢
    rw [hd, ha]
  | cons c cs ih =>
    intro st st2 hd ha
    rw [List.foldl_cons]
    by_cases h1 : (byteTrimmed c).isEmpty = true
    · rw [removeDefaultsLine_blank db types st c h1]
      obtain ⟨kept, hk1, hk2, hk3⟩ := ih st st2 hd ha
      exact ⟨kept, hk1, fun l hl => by
        obtain ⟨c2, hc2, hcl⟩ := hk2 l hl
        exact ⟨c2, List.mem_cons_of_mem c hc2, hcl⟩, hk3⟩
    · have h1b : ¬ (byteTrimmed (byteTrimmed c ++ ['\n'])).isEmpty = true := by
        rw [byteTrimmed_trimmed_chunk]; exact h1
      by_cases h2 : startsWithChar (byteTrimmed c) '[' = true
      · have h2b : startsWithChar (byteTrimmed (byteTrimmed c ++ ['\n'])) '[' = true := by
          rw [byteTrimmed_trimmed_chunk]; exact h2
        rw [removeDefaultsLine_header db types st c h1 h2]
        obtain ⟨kept, hk1, hk2, hk3⟩ := ih
          { inDefaultSection := decide (byteTrimmed c = headerDefault)
            inAddedSection := decide (byteTrimmed c = headerAdded)
            existingContent := st.existingContent ++ [byteTrimmed c] }
          { inDefaultSection := decide (byteTrimmed c = headerDefault)
            inAddedSection := decide (byteTrimmed c = headerAdded)
            existingContent := st2.existingContent ++ [byteTrimmed c] } rfl rfl
        refine ⟨byteTrimmed c :: kept, ?_, ?_, ?_⟩
        · rw [hk1]; simp
        · intro l hl
          rcases List.mem_cons.mp hl with h | h
          · exact ⟨c, List.mem_cons_self c cs, h.symm⟩
          · obtain ⟨c2, hc2, hcl⟩ := hk2 l h
            exact ⟨c2, List.mem_cons_of_mem c hc2, hcl⟩
        · rw [List.map_cons, List.foldl_cons,
            removeDefaultsLine_header db types st2 _ h1b h2b, byteTrimmed_trimmed_chunk, hk3]
          simp
      · have h2b : ¬ startsWithChar (byteTrimmed (byteTrimmed c ++ ['\n'])) '[' = true := by
          rw [byteTrimmed_trimmed_chunk]; exact h2
        rw [removeDefaultsLine_keyed db types st c h1 h2]
        by_cases h3 : ((st.inDefaultSection || st.inAddedSection) &&
            (byteTrimmed c).contains '=' &&
            types.contains (normalizeMimeType db (qTrimmed (fieldFirst '=' (byteTrimmed c))))) =
            true
        · rw [if_pos h3]
          obtain ⟨kept, hk1, hk2, hk3⟩ := ih st st2 hd ha
          exact ⟨kept, hk1, fun l hl => by
            obtain ⟨c2, hc2, hcl⟩ := hk2 l hl
            exact ⟨c2, List.mem_cons_of_mem c hc2, hcl⟩, hk3⟩
        · rw [if_neg h3]
          obtain ⟨kept, hk1, hk2, hk3⟩ := ih
            { st with existingContent := st.existingContent ++ [byteTrimmed c] }
            { st2 with existingContent := st2.existingContent ++ [byteTrimmed c] } hd ha
          refine ⟨byteTrimmed c :: kept, ?_, ?_, ?_⟩
          · rw [hk1]; simp
          · intro l hl
            rcases List.mem_cons.mp hl with h | h
            · exact ⟨c, List.mem_cons_self c cs, h.symm⟩
            · obtain ⟨c2, hc2, hcl⟩ := hk2 l h
              exact ⟨c2, List.mem_cons_of_mem c hc2, hcl⟩
          · have h3b : ¬ ((st2.inDefaultSection || st2.inAddedSection) &&
                (byteTrimmed c).contains '=' &&
                types.contains
                  (normalizeMimeType db (qTrimmed (fieldFirst '=' (byteTrimmed c))))) = true := by
              rw [hd, ha]; exact h3
            rw [List.map_cons, List.foldl_cons,
              removeDefaultsLine_keyed db types st2 _ h1b h2b, byteTrimmed_trimmed_chunk,
              if_neg h3b, hk3]
            simp

theorem removeDefaultsContent_idem (db : MimeDb) (types : List Str) (old : Option Str) :
    removeDefaultsContent db types (some (removeDefaultsContent db types old)) =
      removeDefaultsContent db types old := by
  cases old with
  | none =>
    simp [removeDefaultsContent, removeDefaultsScan, RemoveScan.init, writeLines, readLines]
  | some content =>
    obtain ⟨kept, hk1, hk2, hk3⟩ :=
      removeDefaults_refold db types (readLines content) RemoveScan.init RemoveScan.init rfl rfl
    have hnl : ∀ l ∈ kept, '\n' ∉ l := by
      intro l hl
      obtain ⟨c, hc, hcl⟩ := hk2 l hl
      rw [← hcl]
      exact byteTrimmed_chunk_no_newline content c hc
    have hfirst : removeDefaultsContent db types (some content) = writeLines kept := by
      unfold removeDefaultsContent removeDefaultsScan
      simp only []
      rw [hk1]
      simp [RemoveScan.init]
    rw [hfirst]
    unfold removeDefaultsContent removeDefaultsScan
    simp only []
    have hread : readLines (writeLines kept) = kept.map (fun l => l ++ ['\n']) := by
      have h0 := readLines_writeLines kept [] hnl
      simp only [List.append_nil] at h0
      rw [h0]
      simp [readLines]
    rw [hread, hk3]
    simp [RemoveScan.init]

theorem write_write (fs : FileSystem) (path data : Str) :
    (fs.write path data).write path data = fs.write path data := by
  unfold FileSystem.write
  simp only [FileSystem.mk.injEq, and_true]
  funext p
  split_ifs <;> rfl

/-- C22. For every environment, type database, file system and type set,
running `removeDefaults` a second time with the same types leaves the file
system, and so the user file, as the first run left it. -/
theorem removeDefaults_idempotent (env : QtEnv) (db : MimeDb) (fs : FileSystem)
    (types : List Str) :
    removeDefaults env db (removeDefaults env db fs types) types =
        removeDefaults env db fs types ∧
      (removeDefaults env db (removeDefaults env db fs types) types).content (userFilePath env) =
        (removeDefaults env db fs types).content (userFilePath env) := by
  have hmain : removeDefaults env db (removeDefaults env db fs types) types =
      removeDefaults env db fs types := by
    by_cases he : types.isEmpty = true
    · have h : ∀ g : FileSystem, removeDefaults env db g types = g := by
        intro g
        unfold removeDefaults
        rw [if_pos he]
      rw [h, h]
    · by_cases hw : (!fs.writable (userFilePath env)) = true
      · have h : removeDefaults env db fs types = fs := by
          unfold removeDefaults
          rw [if_neg he, if_pos hw]
        rw [h, h]
      · have h : removeDefaults env db fs types =
            fs.write (userFilePath env)
              (removeDefaultsContent db types (fs.content (userFilePath env))) := by
          unfold removeDefaults
          rw [if_neg he, if_neg hw]
        have hw2 : ¬ (!(fs.write (userFilePath env)
            (removeDefaultsContent db types (fs.content (userFilePath env)))).writable
              (userFilePath env)) = true := hw
        have hc : (fs.write (userFilePath env)
            (removeDefaultsContent db types (fs.content (userFilePath env)))).content
              (userFilePath env) =
            some (removeDefaultsContent db types (fs.content (userFilePath env))) := by
          simp [FileSystem.write]
        rw [h]
        unfold removeDefaults
        rw [if_neg he, if_neg hw2, hc, removeDefaultsContent_idem, write_write]
  exact ⟨hmain, by rw [hmain]⟩

/-! ## C23: the default lines of a requested type after `setDefaults` -/

end SDA
